import Mathlib

/-!
Verification of the langconnect document-ingestion pipeline
(`langconnect/services/document_processor.py`) and the orphan-cleanup
maintenance job (`langconnect/maintenance/cleanup.py`).

Text is modelled as `List Char` (one element per Python character).
External collaborators (the format parsers, the pdfminer `extract_text`
utility, the optional PyMuPDF `fitz` renderer and the text splitter)
are modelled as function parameters collected in an `Env`, and fallible
Python code is modelled in the `Except` monad.
-/

/-! ## Character classes (the regex constants of the source) -/

/-- `_NULL_CHAR = "\x00"`. -/
def NUL : Char := '\x00'

/-- `_NBSP = "\xa0"`. -/
def NBSP : Char := ' '

/-- Membership in the `_ZERO_WIDTH = "[​‌‍﻿⁠]"` class. -/
def isZeroWidth (c : Char) : Bool :=
  c == '​' || c == '‌' || c == '‍' || c == '﻿' || c == '⁠'

/-- Membership in the `[ \t]` class used by `_MULTISPACE = re.compile(r"[ \t]{2,}")`. -/
def isHws (c : Char) : Bool := c == ' ' || c == '\t'

/-- The newline character matched by `_MULTINEWLINE = re.compile(r"\n{3,}")`. -/
def NL : Char := '\n'

/-- The characters removed from either end by Python's `str.strip()`
(the code points `c` with `c.isspace()` true). -/
def isPyWs (c : Char) : Bool :=
  c == ' ' || c == '\t' || c == '\n' || c == '\r' || c == '\x0b' || c == '\x0c' ||
  c == '\x1c' || c == '\x1d' || c == '\x1e' || c == '\x1f' || c == '\x85' ||
  c == ' ' || c == ' ' || (' ' ≤ c && c ≤ ' ') ||
  c == ' ' || c == ' ' || c == ' ' || c == ' ' || c == '　'

/-! ## The primitive string rewrites used by `_normalize_text` -/

/-- `value.replace(_NBSP, " ")`. -/
def replaceNbsp (l : List Char) : List Char :=
  l.map (fun c => if c == NBSP then ' ' else c)

/-- `re.sub(_ZERO_WIDTH, "", cleaned)`. -/
def removeZeroWidth (l : List Char) : List Char :=
  l.filter (fun c => !isZeroWidth c)

/-- `_MULTISPACE.sub(" ", cleaned)`: every maximal run of two or more
horizontal-whitespace characters becomes a single space; an isolated
space or tab is left alone.  Written as a right fold: prepending a
horizontal-whitespace character to a list that starts with another one
merges it into the run already collapsed in the tail's result. -/
def collapseSpaces : List Char → List Char
  | [] => []
  | c :: rest =>
    let t := collapseSpaces rest
    if isHws c then
      match rest with
      | [] => [c]
      | c2 :: _ =>
        if isHws c2 then
          match t with
          | [] => [' ']
          | t0 :: x => if t0 == ' ' then t0 :: x else ' ' :: x
        else c :: t
    else c :: t

/-- `_MULTINEWLINE.sub("\n\n", cleaned)`: every maximal run of three or
more newlines becomes exactly two newlines.  Written as a right fold:
prepending a newline to a list that starts with two newlines (a run the
tail's result has already reduced to two) is absorbed. -/
def collapseNewlines : List Char → List Char
  | [] => []
  | c :: rest =>
    let t := collapseNewlines rest
    if c == NL then
      match rest with
      | c2 :: c3 :: _ => if c2 == NL && c3 == NL then t else c :: t
      | _ => c :: t
    else c :: t

/-- Python `str.strip()`: drop `isPyWs` characters from both ends. -/
def pyStrip (l : List Char) : List Char :=
  ((l.dropWhile isPyWs).reverse.dropWhile isPyWs).reverse

/-! ## `_normalize_text` and `_sanitize_text` -/

/-- `_normalize_text(value: str | None) -> str` (document_processor.py, lines 51-59).
`none` models Python `None`; `if not value: return ""` also catches the empty string. -/
def _normalize_text : Option (List Char) → List Char
  | none => []
  | some value =>
    if value = [] then []
    else pyStrip (collapseNewlines (collapseSpaces (removeZeroWidth (replaceNbsp value))))

/-- `_sanitize_text(value: str | None) -> str` (lines 62-66):
`value.replace(_NULL_CHAR, "")`. -/
def _sanitize_text : Option (List Char) → List Char
  | none => []
  | some value =>
    if value = [] then [] else value.filter (fun c => c ≠ NUL)

/-! ## JSON-like metadata values and the recursive sanitizer -/

/-- The JSON-like values that can appear in a metadata mapping:
strings, numbers, booleans, null, lists and nested string-keyed
mappings (Python `dict`s, modelled as association lists). -/
inductive Value where
  | str : List Char → Value
  | num : Int → Value
  | bool : Bool → Value
  | null : Value
  | arr : List Value → Value
  | obj : List (String × Value) → Value

/-- A Python metadata `dict`, in insertion order. -/
abbrev Metadata := List (String × Value)

mutual
/-- `_sanitize_value(value: Any) -> Any` (lines 69-77): recursively
sanitize strings in metadata structures; other scalars pass through. -/
def _sanitize_value : Value → Value
  | .str s => .str (_sanitize_text (some s))
  | .arr l => .arr (sanitizeValueList l)
  | .obj m => .obj (sanitizeValueEntries m)
  | v => v

/-- The list comprehension `[_sanitize_value(item) for item in value]`. -/
def sanitizeValueList : List Value → List Value
  | [] => []
  | v :: r => _sanitize_value v :: sanitizeValueList r

/-- The dict comprehension `{k: _sanitize_value(v) for k, v in value.items()}`. -/
def sanitizeValueEntries : List (String × Value) → List (String × Value)
  | [] => []
  | (k, v) :: r => (k, _sanitize_value v) :: sanitizeValueEntries r
end

/-- `_sanitize_metadata(metadata: dict | None) -> dict` (lines 80-83);
`if not metadata: return {}` catches `None` and the empty dict. -/
def _sanitize_metadata : Option Metadata → Metadata
  | none => []
  | some metadata =>
    if metadata.isEmpty then []
    else metadata.map (fun kv => (kv.1, _sanitize_value kv.2))

/-! ## Shape and NUL-freeness observers for the sanitizer -/

/-- The shape of a metadata value: constructor tags, list lengths and
mapping keys, with the string contents erased. -/
inductive Shape where
  | str : Shape
  | num : Int → Shape
  | bool : Bool → Shape
  | null : Shape
  | arr : List Shape → Shape
  | obj : List (String × Shape) → Shape

mutual
/-- Erase every string leaf of a value, keeping everything else. -/
def shapeOf : Value → Shape
  | .str _ => .str
  | .num n => .num n
  | .bool b => .bool b
  | .null => .null
  | .arr l => .arr (shapeOfList l)
  | .obj m => .obj (shapeOfEntries m)

def shapeOfList : List Value → List Shape
  | [] => []
  | v :: r => shapeOf v :: shapeOfList r

def shapeOfEntries : List (String × Value) → List (String × Shape)
  | [] => []
  | (k, v) :: r => (k, shapeOf v) :: shapeOfEntries r
end

mutual
/-- No string leaf of the value contains the NUL character. -/
def noNulValue : Value → Bool
  | .str s => s.all (fun c => c ≠ NUL)
  | .arr l => noNulList l
  | .obj m => noNulEntries m
  | _ => true

def noNulList : List Value → Bool
  | [] => true
  | v :: r => noNulValue v && noNulList r

def noNulEntries : List (String × Value) → Bool
  | [] => true
  | (_, v) :: r => noNulValue v && noNulEntries r
end

/-! ## Data model of one ingestion call -/

/-- Raw uploaded bytes (opaque to the pipeline). -/
abbrev Bytes := List Nat

/-- A LangChain `Document`: text plus metadata.  `metadata = none` models a
document object that is missing a `dict`-valued `metadata` attribute (the
`hasattr`/`isinstance` checks in the source). -/
structure Doc where
  page_content : List Char
  metadata : Option Metadata

/-- The typed conditions `process_document` can signal, with `ε` the
error type of the external collaborators:
* `unsupportedMimeType` — the `ValueError` the `MimeTypeBasedParser`
  raises when the blob's mimetype has no registered handler and no
  fallback parser exists;
* `handlerError` — an exception raised by the registered capability
  itself, propagating out of `parse`;
* `http422` — the `HTTPException(status_code=422, detail=...)` raised by
  the minimum-content policy. -/
inductive IngestError (ε : Type) where
  | unsupportedMimeType (mimetype : String)
  | handlerError (e : ε)
  | http422 (detail : String)

/-- Detail string of the PDF "insufficient extractable text" rejection
(document_processor.py, line 147). -/
def insufficientTextDetail : String :=
  "Too little extractable text found. Please upload a text-searchable copy or OCR the PDF (export to TXT) before retrying."

/-- Detail string of the non-PDF "no extractable text" rejection (line 153). -/
def noTextDetail : String :=
  "No extractable text found. Please upload a text-searchable copy."

/-- `MIN_TEXT_CHARS = 500`. -/
def MIN_TEXT_CHARS : Nat := 500

/-- The uploaded file: FastAPI's `UploadFile.content_type` (possibly
`None`) and the bytes returned by `await file.read()`. -/
structure UploadFile where
  content_type : Option String
  contents : Bytes

/-- Python `a or b` for an optional string `a`: `None` and `""` are falsy. -/
def pyOrStr : Option String → String → String
  | none, d => d
  | some s, d => if s = "" then d else s

/-- Python truthiness of an optional dict. -/
def metadataTruthy : Option Metadata → Bool
  | none => false
  | some m => !m.isEmpty

/-- The external collaborators of one `process_document` call: the five
registered parsing capabilities, pdfminer's `extract_text`, the optional
PyMuPDF (`fitz`) renderer (absent when the import failed), and
`TEXT_SPLITTER.split_documents`. -/
structure Env (ε : Type) where
  pdf_handler : Bytes → Except ε (List Doc)
  text_handler : Bytes → Except ε (List Doc)
  html_handler : Bytes → Except ε (List Doc)
  msword_handler : Bytes → Except ε (List Doc)
  docx_handler : Bytes → Except ε (List Doc)
  extract_text : Bytes → Except ε (List Char)
  fitz : Option (Bytes → Except ε (List (List Char)))
  split_documents : List Doc → List Doc

/-- The `HANDLERS` registry (lines 23-31): declared MIME type to capability. -/
def HANDLERS (env : Env ε) : List (String × (Bytes → Except ε (List Doc))) :=
  [("application/pdf", env.pdf_handler),
   ("text/plain", env.text_handler),
   ("text/html", env.html_handler),
   ("application/msword", env.msword_handler),
   ("application/vnd.openxmlformats-officedocument.wordprocessingml.document", env.docx_handler)]

/-- `SUPPORTED_MIMETYPES = sorted(HANDLERS.keys())`. -/
def SUPPORTED_MIMETYPES : List String :=
  ["application/msword", "application/pdf",
   "application/vnd.openxmlformats-officedocument.wordprocessingml.document",
   "text/html", "text/plain"]

/-- Models the external `MimeTypeBasedParser(handlers=HANDLERS,
fallback_parser=None).parse(blob)` collaborator: route the blob's bytes
to the handler registered for its mimetype; with no fallback parser, an
unregistered mimetype raises `ValueError` (here `unsupportedMimeType`);
an exception of the handler itself propagates (here `handlerError`). -/
def mimeTypeBasedParse (env : Env ε) (mimetype : String) (data : Bytes) :
    Except (IngestError ε) (List Doc) :=
  match (HANDLERS env).lookup mimetype with
  | some handler =>
    match handler data with
    | .ok docs => .ok docs
    | .error e => .error (.handlerError e)
  | none => .error (.unsupportedMimeType mimetype)

/-! ## Dict operations used on metadata -/

/-- Python `d[k] = v` on a dict: replace the value of an existing key in
place, else append the new key at the end. -/
def dictSet (m : Metadata) (k : String) (v : Value) : Metadata :=
  if m.any (fun kv => kv.1 = k) then
    m.map (fun kv => if kv.1 = k then (k, v) else kv)
  else m ++ [(k, v)]

/-- Python `d.update(other)`: `dictSet` each entry of `other` in order. -/
def dictUpdate (m other : Metadata) : Metadata :=
  other.foldl (fun acc kv => dictSet acc kv.1 kv.2) m

/-- Number of entries of the dict carrying key `k`. -/
def countKey (m : Metadata) (k : String) : Nat :=
  (m.map Prod.fst).count k

/-! ## The pipeline stages of `process_document` -/

/-- Lines 98-111: normalize and sanitize every parsed document's text,
sanitize its metadata when it has a dict one, then merge the sanitized
caller-supplied metadata into every document (caller keys win). -/
def prepDocs (docs : List Doc) (metadata : Option Metadata) : List Doc :=
  let docs := docs.map (fun d =>
    { page_content := _sanitize_text (some (_normalize_text (some d.page_content))),
      metadata := match d.metadata with
                  | some m => some (_sanitize_metadata (some m))
                  | none => none })
  match metadata with
  | some m =>
    if m.isEmpty then docs
    else
      let sanitized_metadata := _sanitize_metadata (some m)
      docs.map (fun d => { d with metadata := some (dictUpdate (d.metadata.getD []) sanitized_metadata) })
  | none => docs

/-- Line 114: `total_len = sum(len((d.page_content or "").strip()) for d in docs)`. -/
def totalTrimmed (docs : List Doc) : Nat :=
  (docs.map (fun d => (pyStrip d.page_content).length)).sum

/-- Lines 119-131: the fallback text after trying pdfminer's
`extract_text` (failures caught and degraded to `""`) and then, when the
yield is still empty or below `MIN_TEXT_CHARS` and PyMuPDF is available,
`fitz` page extraction joined with `"\n"` (failures caught, keeping the
previous value). -/
def chosenFallbackText (extract_text : Bytes → Except ε (List Char))
    (fitz : Option (Bytes → Except ε (List (List Char)))) (contents : Bytes) : List Char :=
  let fallback_text := match extract_text contents with
                       | .ok t => t
                       | .error _ => []
  match fitz with
  | some fitzExtract =>
    if fallback_text = [] ∨ (pyStrip fallback_text).length < MIN_TEXT_CHARS then
      match fitzExtract contents with
      | .ok texts => List.intercalate [NL] texts
      | .error _ => fallback_text
    else fallback_text
  | none => fallback_text

/-- Lines 118-140: the PDF fallback block.  When the fallback text is
non-empty and its trimmed length reaches `MIN_TEXT_CHARS`, the document
list is replaced by one synthetic document built from the normalized,
sanitized fallback text and the sanitized caller metadata, and
`total_len` becomes that document's (untrimmed) text length; otherwise
documents and total are unchanged. -/
def pdfFallback (extract_text : Bytes → Except ε (List Char))
    (fitz : Option (Bytes → Except ε (List (List Char)))) (contents : Bytes)
    (metadata : Option Metadata) (docs : List Doc) (total_len : Nat) : List Doc × Nat :=
  let fallback_text := chosenFallbackText extract_text fitz contents
  if fallback_text ≠ [] ∧ MIN_TEXT_CHARS ≤ (pyStrip fallback_text).length then
    let newDoc : Doc :=
      { page_content := _sanitize_text (some (_normalize_text (some fallback_text))),
        metadata := some (if metadataTruthy metadata then _sanitize_metadata metadata else []) }
    ([newDoc], newDoc.page_content.length)
  else (docs, total_len)

/-- Python `str.lower()` character by character (`Char.toLower`; only the
ASCII range matters for MIME type strings). -/
def pyLower (s : String) : String := ⟨s.data.map Char.toLower⟩

/-- Line 117's PDF test: `(file.content_type or "").lower() == "application/pdf"`
(note the default is `""` here, unlike the dispatch default `"text/plain"`). -/
def isPdfMime (content_type : Option String) : Bool :=
  pyLower (pyOrStr content_type "") == "application/pdf"

/-- Lines 98-140: preparation, total computation, and the conditional
PDF fallback escalation. -/
def afterFallback (env : Env ε) (file : UploadFile) (metadata : Option Metadata)
    (docs0 : List Doc) : List Doc × Nat :=
  let docs := prepDocs docs0 metadata
  let total_len := totalTrimmed docs
  if total_len < MIN_TEXT_CHARS ∧ isPdfMime file.content_type then
    pdfFallback env.extract_text env.fitz file.contents metadata docs total_len
  else (docs, total_len)

/-- Lines 157-171: split the documents, then re-normalize/re-sanitize
every chunk's text, re-sanitize its metadata (initializing a missing or
non-dict one to `{}`), and store the generated id under `"file_id"`. -/
def finalize (split_documents : List Doc → List Doc) (file_id : List Char)
    (docs : List Doc) : List Doc :=
  (split_documents docs).map (fun split_doc =>
    let m := match split_doc.metadata with
             | none => []
             | some md => _sanitize_metadata (some md)
    { page_content := _sanitize_text (some (_normalize_text (some split_doc.page_content))),
      metadata := some (dictSet m "file_id" (.str file_id)) })

/-- `process_document(file, metadata)` (lines 86-172).  `file_id` is the
string form of the `uuid.uuid4()` generated at the start of the call.
Returns the final chunk list, or the typed condition raised. -/
def process_document (env : Env ε) (file_id : List Char) (file : UploadFile)
    (metadata : Option Metadata) : Except (IngestError ε) (List Doc) :=
  match mimeTypeBasedParse env (pyOrStr file.content_type "text/plain") file.contents with
  | .error e => .error e
  | .ok docs0 =>
    let p := afterFallback env file metadata docs0
    if isPdfMime file.content_type then
      if p.2 < MIN_TEXT_CHARS then .error (.http422 insufficientTextDetail)
      else .ok (finalize env.split_documents file_id p.1)
    else
      if p.2 = 0 then .error (.http422 noTextDetail)
      else .ok (finalize env.split_documents file_id p.1)

/-! ## The orphan-cleanup maintenance job (`maintenance/cleanup.py`) -/

/-- A row of `langchain_pg_embedding`: its id and its `collection_id`. -/
structure EmbRow where
  id : Nat
  collection_id : Nat

/-- The relevant database state: the `uuid` column of
`langchain_pg_collection` and the rows of `langchain_pg_embedding`. -/
structure DBState where
  collections : List Nat
  embeddings : List EmbRow

/-- The `NOT EXISTS (SELECT 1 FROM langchain_pg_collection c WHERE
c.uuid = e.collection_id)` predicate shared by both queries. -/
def isOrphan (db : DBState) (e : EmbRow) : Bool :=
  !(db.collections.any (fun c => c = e.collection_id))

/-- `_count_orphan_embeddings(conn)` (cleanup.py, lines 26-38):
`SELECT count(*) FROM langchain_pg_embedding e WHERE NOT EXISTS (...)`. -/
def _count_orphan_embeddings (db : DBState) : Nat :=
  (db.embeddings.filter (isOrphan db)).length

/-- The `DELETE FROM langchain_pg_embedding e WHERE NOT EXISTS (...)`
statement (lines 56-65): the new state and the deleted-row count that
asyncpg reports in the `"DELETE n"` status string. -/
def deleteOrphansQuery (db : DBState) : DBState × Nat :=
  let remaining := db.embeddings.filter (fun e => !isOrphan db e)
  ({ db with embeddings := remaining }, db.embeddings.length - remaining.length)

/-- `remove_orphan_embeddings(dry_run)` (lines 41-68): count the orphans;
on a dry run (or when there are none) stop there, else run the delete
and return the deleted count.  Returns the count and the final state. -/
def remove_orphan_embeddings (db : DBState) (dry_run : Bool) : Nat × DBState :=
  let orphan_count := _count_orphan_embeddings db
  if dry_run || orphan_count == 0 then (orphan_count, db)
  else
    let (db', deleted) := deleteOrphansQuery db
    (deleted, db')

/-! ## Invariants of normalized text -/

/-- No two adjacent horizontal-whitespace characters (nothing left for
`_MULTISPACE` to match). -/
def noHws2 : List Char → Bool
  | a :: b :: rest => !(isHws a && isHws b) && noHws2 (b :: rest)
  | _ => true

/-- No three consecutive newlines (nothing left for `_MULTINEWLINE` to match). -/
def noNl3 : List Char → Bool
  | a :: b :: c :: rest => !(a == NL && b == NL && c == NL) && noNl3 (b :: c :: rest)
  | _ => true

theorem noHws2_cons_eq (a : Char) (l : List Char) :
    noHws2 (a :: l) =
      ((match l.head? with | some b => !(isHws a && isHws b) | none => true) && noHws2 l) := by
  cases l <;> simp [noHws2]

theorem noHws2_tail : ∀ {a : Char} {l : List Char}, noHws2 (a :: l) = true → noHws2 l = true
  | _, [], _ => rfl
  | _, _ :: _, h => by simp only [noHws2, Bool.and_eq_true] at h; exact h.2

theorem noNl3_cons_eq (a : Char) (l : List Char) :
    noNl3 (a :: l) =
      ((match l with
        | b :: c :: _ => !(a == NL && b == NL && c == NL)
        | _ => true) && noNl3 l) := by
  cases l with
  | nil => simp [noNl3]
  | cons b t => cases t <;> simp [noNl3]

theorem noNl3_tail : ∀ {a : Char} {l : List Char}, noNl3 (a :: l) = true → noNl3 l = true
  | _, [], _ => rfl
  | _, [_], _ => rfl
  | _, _ :: _ :: _, h => by simp only [noNl3, Bool.and_eq_true] at h; exact h.2

theorem noHws2_append_right : ∀ (u : List Char) {x : List Char},
    noHws2 (u ++ x) = true → noHws2 x = true
  | [], _, h => h
  | _ :: u, _, h => noHws2_append_right u (noHws2_tail h)

theorem noHws2_append_left : ∀ {x v : List Char}, noHws2 (x ++ v) = true → noHws2 x = true
  | [], _, _ => rfl
  | [_], _, _ => rfl
  | a :: b :: x, v, h => by
    simp only [List.cons_append, noHws2, Bool.and_eq_true] at h ⊢
    exact ⟨h.1, noHws2_append_left h.2⟩

theorem noNl3_append_right : ∀ (u : List Char) {x : List Char},
    noNl3 (u ++ x) = true → noNl3 x = true
  | [], _, h => h
  | _ :: u, _, h => noNl3_append_right u (noNl3_tail h)

theorem noNl3_append_left : ∀ {x v : List Char}, noNl3 (x ++ v) = true → noNl3 x = true
  | [], _, _ => rfl
  | [_], _, _ => rfl
  | [_, _], _, _ => rfl
  | a :: b :: c :: x, v, h => by
    simp only [List.cons_append, noNl3, Bool.and_eq_true] at h ⊢
    exact ⟨h.1, noNl3_append_left h.2⟩

/-! ## Lemmas about `replaceNbsp` and `removeZeroWidth` -/

theorem mem_replaceNbsp {c : Char} {l : List Char} (h : c ∈ replaceNbsp l) :
    (c == NBSP) = false ∧ (c = ' ' ∨ c ∈ l) := by
  rcases List.mem_map.mp h with ⟨a, ha, hc⟩
  cases hab : (a == NBSP) with
  | true =>
    have hce : c = ' ' := by rw [← hc]; simp [hab]
    subst hce
    exact ⟨by decide, Or.inl rfl⟩
  | false =>
    have hce : c = a := by rw [← hc]; simp [hab]
    subst hce
    exact ⟨hab, Or.inr ha⟩

theorem replaceNbsp_eq_self : ∀ {l : List Char}, (∀ c ∈ l, (c == NBSP) = false) →
    replaceNbsp l = l
  | [], _ => rfl
  | a :: l, h => by
    have ha : (a == NBSP) = false := h a (List.mem_cons_self a l)
    have ih := replaceNbsp_eq_self (fun c hc => h c (List.mem_cons_of_mem _ hc))
    simp only [replaceNbsp, List.map_cons] at ih ⊢
    rw [ha, if_neg (by simp), ih]

theorem mem_removeZeroWidth {c : Char} {l : List Char} (h : c ∈ removeZeroWidth l) :
    isZeroWidth c = false ∧ c ∈ l := by
  rcases List.mem_filter.mp h with ⟨h1, h2⟩
  exact ⟨by simpa using h2, h1⟩

theorem removeZeroWidth_eq_self {l : List Char} (h : ∀ c ∈ l, isZeroWidth c = false) :
    removeZeroWidth l = l :=
  List.filter_eq_self.mpr fun c hc => by simp [h c hc]

/-! ## Lemmas about `collapseSpaces` -/

theorem collapseSpaces_cons (a : Char) (rest : List Char) :
    collapseSpaces (a :: rest) =
      (if isHws a then
        match rest with
        | [] => [a]
        | c2 :: _ =>
          if isHws c2 then
            match collapseSpaces rest with
            | [] => [' ']
            | t0 :: x => if t0 == ' ' then t0 :: x else ' ' :: x
          else a :: collapseSpaces rest
      else a :: collapseSpaces rest) := rfl

theorem collapseSpaces_cons2 (a c2 : Char) (rest2 : List Char) :
    collapseSpaces (a :: c2 :: rest2) =
      (if isHws a then
        if isHws c2 then
          match collapseSpaces (c2 :: rest2) with
          | [] => [' ']
          | t0 :: x => if t0 == ' ' then t0 :: x else ' ' :: x
        else a :: collapseSpaces (c2 :: rest2)
      else a :: collapseSpaces (c2 :: rest2)) := rfl

theorem collapseSpaces_single (a : Char) : collapseSpaces [a] = [a] := by
  rw [collapseSpaces_cons]
  cases h : isHws a <;> simp [collapseSpaces]

theorem cs_not_hws {a : Char} (rest : List Char) (ha : isHws a = false) :
    collapseSpaces (a :: rest) = a :: collapseSpaces rest := by
  rw [collapseSpaces_cons, ha]
  cases rest <;> simp

theorem cs_lone {a c2 : Char} (rest2 : List Char) (ha : isHws a = true)
    (hc2 : isHws c2 = false) :
    collapseSpaces (a :: c2 :: rest2) = a :: collapseSpaces (c2 :: rest2) := by
  rw [collapseSpaces_cons2, if_pos ha, hc2]
  simp

theorem cs_head_not_hws {c2 : Char} (rest2 : List Char) (hc2 : isHws c2 = false) :
    (collapseSpaces (c2 :: rest2)).head? = some c2 := by
  rw [cs_not_hws rest2 hc2]
  rfl

theorem cs_head_hws {a : Char} (rest : List Char) (ha : isHws a = true) :
    ∀ b, (collapseSpaces (a :: rest)).head? = some b → isHws b = true := by
  intro b hb
  cases rest with
  | nil =>
    rw [collapseSpaces_single] at hb
    simp only [List.head?_cons, Option.some_inj] at hb
    rw [← hb]
    exact ha
  | cons c2 rest2 =>
    rw [collapseSpaces_cons2, if_pos ha] at hb
    by_cases hc2 : isHws c2 = true
    · rw [if_pos hc2] at hb
      cases ht : collapseSpaces (c2 :: rest2) with
      | nil =>
        rw [ht] at hb
        simp only [List.head?_cons, Option.some_inj] at hb
        rw [← hb]
        decide
      | cons t0 x =>
        rw [ht] at hb
        dsimp only at hb
        by_cases h0 : (t0 == ' ') = true
        · rw [if_pos h0] at hb
          simp only [List.head?_cons, Option.some_inj] at hb
          have h0' : t0 = ' ' := by simpa using h0
          rw [← hb, h0']
          decide
        · rw [if_neg h0] at hb
          simp only [List.head?_cons, Option.some_inj] at hb
          rw [← hb]
          decide
    · have hc2' : isHws c2 = false := by simpa using hc2
      rw [if_neg hc2] at hb
      simp only [List.head?_cons, Option.some_inj] at hb
      rw [← hb]
      exact ha

theorem mem_collapseSpaces : ∀ {l : List Char} {c : Char},
    c ∈ collapseSpaces l → c = ' ' ∨ c ∈ l
  | [], c, h => by simp [collapseSpaces] at h
  | [a], c, h => by
    rw [collapseSpaces_single] at h
    exact Or.inr h
  | a :: c2 :: rest2, c, h => by
    rw [collapseSpaces_cons2] at h
    by_cases ha : isHws a = true
    · rw [if_pos ha] at h
      by_cases hc2 : isHws c2 = true
      · rw [if_pos hc2] at h
        cases ht : collapseSpaces (c2 :: rest2) with
        | nil =>
          rw [ht] at h
          simp at h
          exact Or.inl h
        | cons t0 x =>
          rw [ht] at h
          dsimp only at h
          by_cases h0 : (t0 == ' ') = true
          · rw [if_pos h0] at h
            have hmem : c ∈ collapseSpaces (c2 :: rest2) := by rw [ht]; exact h
            rcases mem_collapseSpaces hmem with h1 | h1
            · exact Or.inl h1
            · exact Or.inr (List.mem_cons_of_mem a h1)
          · rw [if_neg h0] at h
            rcases List.mem_cons.mp h with h1 | h1
            · exact Or.inl h1
            · have hmem : c ∈ collapseSpaces (c2 :: rest2) := by
                rw [ht]; exact List.mem_cons_of_mem t0 h1
              rcases mem_collapseSpaces hmem with h2 | h2
              · exact Or.inl h2
              · exact Or.inr (List.mem_cons_of_mem a h2)
      · rw [if_neg hc2] at h
        rcases List.mem_cons.mp h with h1 | h1
        · exact Or.inr (by simp [h1])
        · rcases mem_collapseSpaces h1 with h2 | h2
          · exact Or.inl h2
          · exact Or.inr (List.mem_cons_of_mem a h2)
    · rw [if_neg ha] at h
      rcases List.mem_cons.mp h with h1 | h1
      · exact Or.inr (by simp [h1])
      · rcases mem_collapseSpaces h1 with h2 | h2
        · exact Or.inl h2
        · exact Or.inr (List.mem_cons_of_mem a h2)

theorem noHws2_cons_intro (a : Char) (t : List Char) (ht : noHws2 t = true)
    (h : ∀ b r, t = b :: r → (isHws a && isHws b) = false) : noHws2 (a :: t) = true := by
  rw [noHws2_cons_eq]
  cases t with
  | nil => simp [ht]
  | cons b r => simp [ht, h b r rfl]

theorem noHws2_pair_head {a : Char} {l : List Char} (h : noHws2 (a :: l) = true) :
    ∀ b, l.head? = some b → (isHws a && isHws b) = false := by
  intro b hb
  cases l with
  | nil => simp at hb
  | cons x r =>
    simp only [List.head?_cons, Option.some_inj] at hb
    subst hb
    simp only [noHws2, Bool.and_eq_true] at h
    have h1 := h.1
    cases hab : (isHws a && isHws x) with
    | false => rfl
    | true => rw [hab] at h1; exact absurd h1 (by decide)

theorem noHws2_collapseSpaces : ∀ (l : List Char), noHws2 (collapseSpaces l) = true
  | [] => rfl
  | [a] => by rw [collapseSpaces_single]; rfl
  | a :: c2 :: rest2 => by
    have ih := noHws2_collapseSpaces (c2 :: rest2)
    rw [collapseSpaces_cons2]
    by_cases ha : isHws a = true
    · rw [if_pos ha]
      by_cases hc2 : isHws c2 = true
      · rw [if_pos hc2]
        cases ht : collapseSpaces (c2 :: rest2) with
        | nil => rfl
        | cons t0 x =>
          have iht : noHws2 (t0 :: x) = true := ht ▸ ih
          dsimp only
          by_cases h0 : (t0 == ' ') = true
          · rw [if_pos h0]
            exact iht
          · rw [if_neg h0]
            have ht0 : isHws t0 = true :=
              cs_head_hws rest2 hc2 t0 (by rw [ht]; rfl)
            refine noHws2_cons_intro _ _ (noHws2_tail iht) ?_
            intro b r hbr
            have hb : x.head? = some b := by rw [hbr]; rfl
            have hp := noHws2_pair_head iht b hb
            rw [ht0] at hp
            simp only [Bool.true_and] at hp
            simp [hp]
      · have hc2' : isHws c2 = false := by simpa using hc2
        rw [if_neg hc2]
        refine noHws2_cons_intro _ _ ih ?_
        intro b r hbr
        have hhd : (collapseSpaces (c2 :: rest2)).head? = some b := by rw [hbr]; rfl
        rw [cs_head_not_hws rest2 hc2'] at hhd
        have hb : c2 = b := by simpa using hhd
        rw [← hb, hc2']
        simp
    · have ha' : isHws a = false := by simpa using ha
      rw [if_neg ha]
      refine noHws2_cons_intro _ _ ih ?_
      intro b r _
      simp [ha']

theorem collapseSpaces_eq_self : ∀ {l : List Char}, noHws2 l = true → collapseSpaces l = l
  | [], _ => rfl
  | [a], _ => collapseSpaces_single a
  | a :: c2 :: rest2, h => by
    have hpair := noHws2_pair_head h c2 rfl
    have htail : noHws2 (c2 :: rest2) = true := noHws2_tail h
    by_cases ha : isHws a = true
    · have hc2 : isHws c2 = false := by
        rw [ha] at hpair
        simpa using hpair
      rw [cs_lone rest2 ha hc2, collapseSpaces_eq_self htail]
    · have ha' : isHws a = false := by simpa using ha
      rw [cs_not_hws _ ha', collapseSpaces_eq_self htail]

/-! ## Lemmas about `collapseNewlines` -/

theorem bool_neg_true {b : Bool} (h : (!b) = true) : b = false := by
  cases b
  · rfl
  · exact absurd h (by decide)

theorem collapseNewlines_cons (a : Char) (rest : List Char) :
    collapseNewlines (a :: rest) =
      (if a == NL then
        match rest with
        | c2 :: c3 :: _ => if c2 == NL && c3 == NL then collapseNewlines rest
                           else a :: collapseNewlines rest
        | _ => a :: collapseNewlines rest
      else a :: collapseNewlines rest) := rfl

theorem collapseNewlines_cons3 (a c2 c3 : Char) (r : List Char) :
    collapseNewlines (a :: c2 :: c3 :: r) =
      (if a == NL then
        if c2 == NL && c3 == NL then collapseNewlines (c2 :: c3 :: r)
        else a :: collapseNewlines (c2 :: c3 :: r)
      else a :: collapseNewlines (c2 :: c3 :: r)) := rfl

theorem cn_single (a : Char) : collapseNewlines [a] = [a] := by
  rw [collapseNewlines_cons]
  cases h : a == NL <;> simp [collapseNewlines]

theorem cn_pair (a b : Char) : collapseNewlines [a, b] = [a, b] := by
  rw [collapseNewlines_cons]
  cases h : a == NL <;> simp [cn_single]

theorem cn_not_nl {a : Char} (rest : List Char) (ha : (a == NL) = false) :
    collapseNewlines (a :: rest) = a :: collapseNewlines rest := by
  rw [collapseNewlines_cons, ha]
  simp

theorem cn_run {a c2 c3 : Char} {r : List Char} (ha : (a == NL) = true)
    (hb : (c2 == NL && c3 == NL) = true) :
    collapseNewlines (a :: c2 :: c3 :: r) = collapseNewlines (c2 :: c3 :: r) := by
  rw [collapseNewlines_cons3, if_pos ha, if_pos hb]

theorem cn_norun {a c2 c3 : Char} {r : List Char} (ha : (a == NL) = true)
    (hb : (c2 == NL && c3 == NL) = false) :
    collapseNewlines (a :: c2 :: c3 :: r) = a :: collapseNewlines (c2 :: c3 :: r) := by
  rw [collapseNewlines_cons3, if_pos ha, hb]
  simp

theorem cn_step2 {c2 c3 : Char} (r : List Char) (hc2 : (c2 == NL) = true)
    (hc3 : (c3 == NL) = false) :
    collapseNewlines (c2 :: c3 :: r) = c2 :: collapseNewlines (c3 :: r) := by
  cases r with
  | nil =>
    rw [collapseNewlines_cons, if_pos hc2]
  | cons r0 r' =>
    have hb : (c3 == NL && r0 == NL) = false := by rw [hc3]; rfl
    exact cn_norun hc2 hb

theorem cn_head : ∀ (l : List Char), (collapseNewlines l).head? = l.head?
  | [] => rfl
  | a :: rest => by
    by_cases ha : (a == NL) = true
    · cases rest with
      | nil => rw [cn_single]
      | cons c2 rest2 =>
        cases rest2 with
        | nil => rw [cn_pair]
        | cons c3 r =>
          by_cases hb : (c2 == NL && c3 == NL) = true
          · rw [cn_run ha hb, cn_head (c2 :: c3 :: r)]
            have ha' : a = NL := eq_of_beq ha
            have hc2' : c2 = NL := eq_of_beq (Bool.and_eq_true_iff.mp hb).1
            rw [ha', hc2']
            rfl
          · have hb' : (c2 == NL && c3 == NL) = false := by
              cases hx : (c2 == NL && c3 == NL)
              · rfl
              · exact absurd hx hb
            rw [cn_norun ha hb']
            rfl
    · have ha' : (a == NL) = false := by simpa using ha
      rw [cn_not_nl rest ha']
      rfl

theorem cn_cons_or (a : Char) (rest : List Char) :
    collapseNewlines (a :: rest) = a :: collapseNewlines rest ∨
      collapseNewlines (a :: rest) = collapseNewlines rest := by
  by_cases ha : (a == NL) = true
  · cases rest with
    | nil => left; rw [cn_single]; rfl
    | cons c2 rest2 =>
      cases rest2 with
      | nil => left; rw [cn_pair, cn_single]
      | cons c3 r =>
        by_cases hb : (c2 == NL && c3 == NL) = true
        · right; exact cn_run ha hb
        · have hb' : (c2 == NL && c3 == NL) = false := by
            cases hx : (c2 == NL && c3 == NL)
            · rfl
            · exact absurd hx hb
          left; exact cn_norun ha hb'
  · have ha' : (a == NL) = false := by simpa using ha
    left; exact cn_not_nl rest ha'

theorem mem_collapseNewlines : ∀ {l : List Char} {c : Char},
    c ∈ collapseNewlines l → c ∈ l
  | [], c, h => by simp [collapseNewlines] at h
  | a :: rest, c, h => by
    rcases cn_cons_or a rest with hor | hor
    · rw [hor] at h
      rcases List.mem_cons.mp h with h1 | h1
      · simp [h1]
      · exact List.mem_cons_of_mem a (mem_collapseNewlines h1)
    · rw [hor] at h
      exact List.mem_cons_of_mem a (mem_collapseNewlines h)

theorem noNl3_cons_intro (a : Char) (t : List Char) (ht : noNl3 t = true)
    (h : ∀ b c r, t = b :: c :: r → (a == NL && b == NL && c == NL) = false) :
    noNl3 (a :: t) = true := by
  rw [noNl3_cons_eq]
  cases t with
  | nil => simp [ht]
  | cons b t' =>
    cases t' with
    | nil => simp [ht]
    | cons c r =>
      dsimp only
      rw [h b c r rfl, ht]
      rfl

theorem noNl3_collapseNewlines : ∀ (l : List Char), noNl3 (collapseNewlines l) = true
  | [] => rfl
  | [a] => by rw [cn_single]; rfl
  | [a, b] => by rw [cn_pair]; rfl
  | a :: c2 :: c3 :: r => by
    have ih := noNl3_collapseNewlines (c2 :: c3 :: r)
    by_cases ha : (a == NL) = true
    · by_cases hbt : (c2 == NL && c3 == NL) = true
      · rw [cn_run ha hbt]
        exact ih
      · have hb : (c2 == NL && c3 == NL) = false := by
          cases hx : (c2 == NL && c3 == NL)
          · rfl
          · exact absurd hx hbt
        rw [cn_norun ha hb]
        refine noNl3_cons_intro _ _ ih ?_
        intro b c r' heq
        have hbhead : (collapseNewlines (c2 :: c3 :: r)).head? = some b := by rw [heq]; rfl
        rw [cn_head] at hbhead
        have hbc2 : c2 = b := by simpa using hbhead
        by_cases hc2 : (c2 == NL) = true
        · have hc3 : (c3 == NL) = false := by
            cases hx : (c3 == NL)
            · rfl
            · rw [hc2, hx] at hb; exact absurd hb (by decide)
          have hstep := cn_step2 r hc2 hc3
          rw [hstep, ← hbc2] at heq
          have htl : collapseNewlines (c3 :: r) = c :: r' := by
            simp only [List.cons.injEq] at heq
            exact heq.2
          have hch : (c3 :: r).head? = some c := by rw [← cn_head, htl]; rfl
          have hc3c : c3 = c := by simpa using hch
          rw [← hc3c, hc3]
          simp
        · have hc2' : (c2 == NL) = false := by simpa using hc2
          rw [← hbc2, hc2']
          simp
    · have ha' : (a == NL) = false := by simpa using ha
      rw [cn_not_nl _ ha']
      refine noNl3_cons_intro _ _ ih ?_
      intro b c r' _
      rw [ha']
      simp

theorem collapseNewlines_eq_self : ∀ {l : List Char}, noNl3 l = true →
    collapseNewlines l = l
  | [], _ => rfl
  | [a], _ => cn_single a
  | [a, b], _ => cn_pair a b
  | a :: c2 :: c3 :: r, h => by
    have htail : noNl3 (c2 :: c3 :: r) = true := noNl3_tail h
    by_cases ha : (a == NL) = true
    · have hwin : (a == NL && c2 == NL && c3 == NL) = false := by
        simp only [noNl3, Bool.and_eq_true] at h
        exact bool_neg_true h.1
      have hb : (c2 == NL && c3 == NL) = false := by
        rw [ha] at hwin
        simpa using hwin
      rw [cn_norun ha hb, collapseNewlines_eq_self htail]
    · have ha' : (a == NL) = false := by simpa using ha
      rw [cn_not_nl _ ha', collapseNewlines_eq_self htail]

theorem noHws2_collapseNewlines : ∀ {l : List Char}, noHws2 l = true →
    noHws2 (collapseNewlines l) = true
  | [], _ => rfl
  | a :: rest, h => by
    have ih := noHws2_collapseNewlines (noHws2_tail h)
    rcases cn_cons_or a rest with hor | hor
    · rw [hor]
      refine noHws2_cons_intro _ _ ih ?_
      intro b r heq
      have hb : rest.head? = some b := by rw [← cn_head, heq]; rfl
      exact noHws2_pair_head h b hb
    · rw [hor]
      exact ih

/-! ## Lemmas about `pyStrip` -/

theorem dropWhile_head_not (p : Char → Bool) : ∀ (l : List Char) (b : Char),
    (l.dropWhile p).head? = some b → p b = false
  | [], b, h => by simp at h
  | a :: l, b, h => by
    rw [List.dropWhile_cons] at h
    by_cases hp : p a = true
    · rw [if_pos hp] at h
      exact dropWhile_head_not p l b h
    · rw [if_neg hp] at h
      simp only [List.head?_cons, Option.some_inj] at h
      rw [← h]
      simpa using hp

theorem exists_dropWhile_append (p : Char → Bool) : ∀ (l : List Char),
    ∃ u, l = u ++ l.dropWhile p
  | [] => ⟨[], rfl⟩
  | a :: l => by
    rw [List.dropWhile_cons]
    by_cases hp : p a = true
    · rw [if_pos hp]
      obtain ⟨u, hu⟩ := exists_dropWhile_append p l
      exact ⟨a :: u, by rw [List.cons_append, ← hu]⟩
    · rw [if_neg hp]
      exact ⟨[], rfl⟩

theorem dropWhile_dropWhile (p : Char → Bool) (l : List Char) :
    (l.dropWhile p).dropWhile p = l.dropWhile p := by
  cases hml : l.dropWhile p with
  | nil => rfl
  | cons c t =>
    have hc : p c = false := dropWhile_head_not p l c (by rw [hml]; rfl)
    rw [List.dropWhile_cons, if_neg (by simp [hc])]

theorem pyStrip_decomp (l : List Char) : ∃ u v, l = u ++ (pyStrip l ++ v) := by
  obtain ⟨u, hu⟩ := exists_dropWhile_append isPyWs l
  obtain ⟨b, hb⟩ := exists_dropWhile_append isPyWs (l.dropWhile isPyWs).reverse
  refine ⟨u, b.reverse, ?_⟩
  have hm : l.dropWhile isPyWs = pyStrip l ++ b.reverse := by
    conv_lhs => rw [← List.reverse_reverse (l.dropWhile isPyWs)]
    rw [hb, List.reverse_append]
    rfl
  conv_lhs => rw [hu, hm]

theorem mem_pyStrip {l : List Char} {c : Char} (h : c ∈ pyStrip l) : c ∈ l := by
  obtain ⟨u, v, he⟩ := pyStrip_decomp l
  rw [he]
  simp [h]

theorem noHws2_pyStrip {l : List Char} (h : noHws2 l = true) :
    noHws2 (pyStrip l) = true := by
  obtain ⟨u, v, he⟩ := pyStrip_decomp l
  rw [he] at h
  exact noHws2_append_left (noHws2_append_right u h)

theorem noNl3_pyStrip {l : List Char} (h : noNl3 l = true) :
    noNl3 (pyStrip l) = true := by
  obtain ⟨u, v, he⟩ := pyStrip_decomp l
  rw [he] at h
  exact noNl3_append_left (noNl3_append_right u h)

theorem pyStrip_idem (l : List Char) : pyStrip (pyStrip l) = pyStrip l := by
  have h1 : (pyStrip l).dropWhile isPyWs = pyStrip l := by
    cases hq : pyStrip l with
    | nil => rfl
    | cons c t =>
      obtain ⟨b, hb⟩ := exists_dropWhile_append isPyWs (l.dropWhile isPyWs).reverse
      have hm : l.dropWhile isPyWs = pyStrip l ++ b.reverse := by
        conv_lhs => rw [← List.reverse_reverse (l.dropWhile isPyWs)]
        rw [hb, List.reverse_append]
        rfl
      have hhead : (l.dropWhile isPyWs).head? = some c := by
        rw [hm, hq]
        rfl
      have hc : isPyWs c = false := dropWhile_head_not isPyWs l c hhead
      rw [List.dropWhile_cons, if_neg (by simp [hc])]
  show (((pyStrip l).dropWhile isPyWs).reverse.dropWhile isPyWs).reverse = pyStrip l
  rw [h1]
  show ((((l.dropWhile isPyWs).reverse.dropWhile isPyWs).reverse).reverse.dropWhile isPyWs).reverse
      = pyStrip l
  rw [List.reverse_reverse, dropWhile_dropWhile]
  rfl

/-! ## The invariants of normalized text, and idempotence -/

theorem normalize_invariants (v : List Char) :
    (∀ c ∈ _normalize_text (some v), (c == NBSP) = false) ∧
    (∀ c ∈ _normalize_text (some v), isZeroWidth c = false) ∧
    noHws2 (_normalize_text (some v)) = true ∧
    noNl3 (_normalize_text (some v)) = true ∧
    pyStrip (_normalize_text (some v)) = _normalize_text (some v) := by
  by_cases hv : v = []
  · simp [_normalize_text, hv, noHws2, noNl3, pyStrip]
  · have hform : _normalize_text (some v) =
        pyStrip (collapseNewlines (collapseSpaces (removeZeroWidth (replaceNbsp v)))) := by
      simp [_normalize_text, hv]
    set A := replaceNbsp v with hA
    set B := removeZeroWidth A with hB
    set C := collapseSpaces B with hC
    set D := collapseNewlines C with hD
    have hc1 : ∀ c ∈ C, (c == NBSP) = false := by
      intro c hc
      rcases mem_collapseSpaces hc with h1 | h1
      · rw [h1]; decide
      · exact (mem_replaceNbsp ((mem_removeZeroWidth h1).2)).1
    have hc2 : ∀ c ∈ C, isZeroWidth c = false := by
      intro c hc
      rcases mem_collapseSpaces hc with h1 | h1
      · rw [h1]; decide
      · exact (mem_removeZeroWidth h1).1
    have hd1 : ∀ c ∈ D, (c == NBSP) = false := fun c hc => hc1 c (mem_collapseNewlines hc)
    have hd2 : ∀ c ∈ D, isZeroWidth c = false := fun c hc => hc2 c (mem_collapseNewlines hc)
    have hd3 : noHws2 D = true := noHws2_collapseNewlines (noHws2_collapseSpaces B)
    have hd4 : noNl3 D = true := noNl3_collapseNewlines C
    rw [hform]
    exact ⟨fun c hc => hd1 c (mem_pyStrip hc),
           fun c hc => hd2 c (mem_pyStrip hc),
           noHws2_pyStrip hd3,
           noNl3_pyStrip hd4,
           pyStrip_idem D⟩

theorem normalize_fixed (t : List Char)
    (h1 : ∀ c ∈ t, (c == NBSP) = false)
    (h2 : ∀ c ∈ t, isZeroWidth c = false)
    (h3 : noHws2 t = true)
    (h4 : noNl3 t = true)
    (h5 : pyStrip t = t) :
    _normalize_text (some t) = t := by
  by_cases ht : t = []
  · simp [_normalize_text, ht]
  · simp only [_normalize_text, if_neg ht]
    rw [replaceNbsp_eq_self h1, removeZeroWidth_eq_self h2,
        collapseSpaces_eq_self h3, collapseNewlines_eq_self h4, h5]

/-! ## Lemmas about the sanitizers -/

theorem sanitize_text_no_nul (s : Option (List Char)) :
    (_sanitize_text s).all (fun c => c ≠ NUL) = true := by
  cases s with
  | none => rfl
  | some v =>
    by_cases hv : v = []
    · simp [_sanitize_text, hv]
    · simp only [_sanitize_text, if_neg hv]
      rw [List.all_eq_true]
      intro c hc
      exact (List.mem_filter.mp hc).2

mutual
theorem sanitize_shape : ∀ v : Value, shapeOf (_sanitize_value v) = shapeOf v
  | .str _ => rfl
  | .num _ => rfl
  | .bool _ => rfl
  | .null => rfl
  | .arr l => by
    simp only [_sanitize_value, shapeOf]
    rw [sanitize_shape_list l]
  | .obj m => by
    simp only [_sanitize_value, shapeOf]
    rw [sanitize_shape_entries m]

theorem sanitize_shape_list : ∀ l : List Value,
    shapeOfList (sanitizeValueList l) = shapeOfList l
  | [] => rfl
  | v :: r => by
    simp only [sanitizeValueList, shapeOfList]
    rw [sanitize_shape v, sanitize_shape_list r]

theorem sanitize_shape_entries : ∀ m : List (String × Value),
    shapeOfEntries (sanitizeValueEntries m) = shapeOfEntries m
  | [] => rfl
  | (k, v) :: r => by
    simp only [sanitizeValueEntries, shapeOfEntries]
    rw [sanitize_shape v, sanitize_shape_entries r]
end

mutual
theorem sanitize_noNul : ∀ v : Value, noNulValue (_sanitize_value v) = true
  | .str s => by
    simp only [_sanitize_value, noNulValue]
    exact sanitize_text_no_nul (some s)
  | .num _ => rfl
  | .bool _ => rfl
  | .null => rfl
  | .arr l => by
    simp only [_sanitize_value, noNulValue]
    exact sanitize_noNul_list l
  | .obj m => by
    simp only [_sanitize_value, noNulValue]
    exact sanitize_noNul_entries m

theorem sanitize_noNul_list : ∀ l : List Value, noNulList (sanitizeValueList l) = true
  | [] => rfl
  | v :: r => by
    simp only [sanitizeValueList, noNulList]
    rw [sanitize_noNul v, sanitize_noNul_list r]
    rfl

theorem sanitize_noNul_entries : ∀ m : List (String × Value),
    noNulEntries (sanitizeValueEntries m) = true
  | [] => rfl
  | (k, v) :: r => by
    simp only [sanitizeValueEntries, noNulEntries]
    rw [sanitize_noNul v, sanitize_noNul_entries r]
    rfl
end

/-- The dict comprehension in `_sanitize_metadata` is `sanitizeValueEntries`. -/
theorem map_sanitize_eq_entries : ∀ m : Metadata,
    m.map (fun kv => (kv.1, _sanitize_value kv.2)) = sanitizeValueEntries m
  | [] => rfl
  | (k, v) :: r => by
    simp only [List.map_cons, sanitizeValueEntries]
    rw [map_sanitize_eq_entries r]

theorem sanitize_metadata_some (m : Metadata) :
    _sanitize_metadata (some m) = sanitizeValueEntries m := by
  cases m with
  | nil => rfl
  | cons kv r =>
    have he : ((kv :: r : Metadata)).isEmpty = false := rfl
    simp only [_sanitize_metadata, he, Bool.false_eq_true, if_false]
    exact map_sanitize_eq_entries _

/-! ## Lemmas about the dict operations -/

theorem keys_sanitizeValueEntries : ∀ m : Metadata,
    (sanitizeValueEntries m).map Prod.fst = m.map Prod.fst
  | [] => rfl
  | (k, v) :: r => by
    simp only [sanitizeValueEntries, List.map_cons]
    rw [keys_sanitizeValueEntries r]

theorem countKey_sanitizeValueEntries (m : Metadata) (k : String) :
    countKey (sanitizeValueEntries m) k = countKey m k := by
  unfold countKey
  rw [keys_sanitizeValueEntries]

theorem lookup_map_set (k : String) (v : Value) : ∀ (m : Metadata),
    m.any (fun kv => kv.1 = k) = true →
    (m.map (fun kv => if kv.1 = k then (k, v) else kv)).lookup k = some v
  | [], h => by simp at h
  | (k0, v0) :: r, h => by
    simp only [List.map_cons]
    by_cases hk : k0 = k
    · have h1 : (if (k0, v0).1 = k then (k, v) else (k0, v0)) = (k, v) := by simp [hk]
      rw [h1]
      simp [List.lookup]
    · have h1 : (if (k0, v0).1 = k then (k, v) else (k0, v0)) = (k0, v0) := by simp [hk]
      rw [h1]
      have h2 : r.any (fun kv => kv.1 = k) = true := by
        cases hx : r.any (fun kv => kv.1 = k)
        · rw [List.any_cons, hx] at h
          simp [hk] at h
        · rfl
      have hne : (k == k0) = false := by
        simp only [beq_eq_false_iff_ne, ne_eq]
        exact fun he => hk he.symm
      simp only [List.lookup, hne]
      exact lookup_map_set k v r h2

theorem lookup_append_single (k : String) (v : Value) : ∀ (m : Metadata),
    m.any (fun kv => kv.1 = k) = false →
    (m ++ [(k, v)]).lookup k = some v
  | [], _ => by simp [List.lookup]
  | (k0, v0) :: r, h => by
    have h1 : ¬(k0 = k) := by
      intro he
      rw [List.any_cons] at h
      simp [he] at h
    have h2 : r.any (fun kv => kv.1 = k) = false := by
      cases hx : r.any (fun kv => kv.1 = k)
      · rfl
      · rw [List.any_cons, hx] at h
        simp at h
    have hne : (k == k0) = false := by
      simp only [beq_eq_false_iff_ne, ne_eq]
      exact fun he => h1 he.symm
    simp only [List.cons_append, List.lookup, hne]
    exact lookup_append_single k v r h2

/-- Setting the reserved key always makes it retrievable with the new value. -/
theorem lookup_dictSet (m : Metadata) (k : String) (v : Value) :
    (dictSet m k v).lookup k = some v := by
  unfold dictSet
  by_cases h : m.any (fun kv => kv.1 = k) = true
  · rw [if_pos h]
    exact lookup_map_set k v m h
  · have h' : m.any (fun kv => kv.1 = k) = false := by
      cases hx : m.any (fun kv => kv.1 = k)
      · rfl
      · exact absurd hx h
    simp only [h', Bool.false_eq_true, if_false]
    exact lookup_append_single k v m h'

theorem countKey_map_set (k : String) (v : Value) : ∀ (m : Metadata),
    countKey (m.map (fun kv => if kv.1 = k then (k, v) else kv)) k = countKey m k
  | [] => rfl
  | (k0, v0) :: r => by
    have ih := countKey_map_set k v r
    simp only [countKey] at ih ⊢
    simp only [List.map_cons]
    by_cases hk : k0 = k
    · subst hk
      have h1 : (if (k0, v0).1 = k0 then (k0, v) else (k0, v0)) = (k0, v) := by simp
      rw [h1]
      simp only [List.map_cons, List.count_cons, ih]
    · have h1 : (if (k0, v0).1 = k then (k, v) else (k0, v0)) = (k0, v0) := by simp [hk]
      rw [h1]
      simp only [List.map_cons, List.count_cons, ih]

theorem countKey_pos_of_any : ∀ (m : Metadata) (k : String),
    m.any (fun kv => kv.1 = k) = true → 1 ≤ countKey m k
  | [], k, h => by simp at h
  | (k0, v0) :: r, k, h => by
    by_cases hk : k0 = k
    · subst hk
      simp only [countKey, List.map_cons, List.count_cons]
      simp
    · have h2 : r.any (fun kv => kv.1 = k) = true := by
        cases hx : r.any (fun kv => kv.1 = k)
        · rw [List.any_cons, hx] at h
          simp [hk] at h
        · rfl
      have := countKey_pos_of_any r k h2
      simp only [countKey, List.map_cons, List.count_cons] at this ⊢
      omega

theorem countKey_zero_of_not_any : ∀ (m : Metadata) (k : String),
    m.any (fun kv => kv.1 = k) = false → countKey m k = 0
  | [], _, _ => rfl
  | (k0, v0) :: r, k, h => by
    have h1 : ¬(k0 = k) := by
      intro he
      rw [List.any_cons] at h
      simp [he] at h
    have h2 : r.any (fun kv => kv.1 = k) = false := by
      cases hx : r.any (fun kv => kv.1 = k)
      · rfl
      · rw [List.any_cons, hx] at h
        simp at h
    have ih := countKey_zero_of_not_any r k h2
    have hbe : (k0 == k) = false := by
      simp only [beq_eq_false_iff_ne, ne_eq]
      exact h1
    simp only [countKey, List.map_cons, List.count_cons] at ih ⊢
    rw [hbe]
    simp [ih]

/-- Setting the reserved key yields exactly one occurrence of it, provided
the dict held at most one (always true of a Python dict). -/
theorem countKey_dictSet (m : Metadata) (k : String) (v : Value)
    (h : countKey m k ≤ 1) : countKey (dictSet m k v) k = 1 := by
  unfold dictSet
  by_cases hany : m.any (fun kv => kv.1 = k) = true
  · rw [if_pos hany, countKey_map_set]
    have := countKey_pos_of_any m k hany
    omega
  · have h' : m.any (fun kv => kv.1 = k) = false := by
      cases hx : m.any (fun kv => kv.1 = k)
      · rfl
      · exact absurd hx hany
    simp only [h', Bool.false_eq_true, if_false]
    have hz := countKey_zero_of_not_any m k h'
    simp only [countKey, List.map_append, List.count_append] at hz ⊢
    rw [hz]
    simp [List.count_cons]

/-! ## Unfolding lemma for `process_document` after a successful parse -/

theorem process_document_shape {ε : Type} (env : Env ε) (file_id : List Char)
    (file : UploadFile) (metadata : Option Metadata) (docs0 : List Doc)
    (hd : mimeTypeBasedParse env (pyOrStr file.content_type "text/plain") file.contents =
      .ok docs0) :
    process_document env file_id file metadata =
      (if isPdfMime file.content_type then
        if (afterFallback env file metadata docs0).2 < MIN_TEXT_CHARS then
          .error (.http422 insufficientTextDetail)
        else .ok (finalize env.split_documents file_id (afterFallback env file metadata docs0).1)
      else
        if (afterFallback env file metadata docs0).2 = 0 then
          .error (.http422 noTextDetail)
        else .ok (finalize env.split_documents file_id (afterFallback env file metadata docs0).1)) := by
  simp only [process_document, hd]

/-! ## Claim C5 -/

/-- Claim C5: the text normalizer is idempotent — for every string `s`,
`_normalize_text(_normalize_text(s)) = _normalize_text(s)` — and empty or
null (`None`) input yields the empty string (and, being a total function
of the embedding, it never raises). -/
theorem C5_normalize_idempotent :
    (∀ v : Option (List Char),
      _normalize_text (some (_normalize_text v)) = _normalize_text v) ∧
    _normalize_text none = [] ∧ _normalize_text (some []) = [] := by
  refine ⟨?_, rfl, rfl⟩
  intro v
  cases v with
  | none => rfl
  | some s =>
    obtain ⟨h1, h2, h3, h4, h5⟩ := normalize_invariants s
    exact normalize_fixed _ h1 h2 h3 h4 h5

/-! ## Claim C6 -/

/-- Claim C6: the storage sanitizer is total over JSON-like values — it is
a total Lean function, the result has the same shape as the input (string
leaves stay string leaves, list lengths and mapping keys are kept), no
string leaf of the result contains the NUL character, non-string
non-container scalars pass through unchanged, and a null/absent metadata
mapping sanitizes to the empty mapping. -/
theorem C6_sanitizer_total :
    (∀ v : Value, shapeOf (_sanitize_value v) = shapeOf v ∧
      noNulValue (_sanitize_value v) = true) ∧
    (∀ n : Int, _sanitize_value (.num n) = .num n) ∧
    (∀ b : Bool, _sanitize_value (.bool b) = .bool b) ∧
    _sanitize_value .null = .null ∧
    _sanitize_metadata none = [] ∧
    (∀ m : Metadata, shapeOfEntries (_sanitize_metadata (some m)) = shapeOfEntries m ∧
      noNulEntries (_sanitize_metadata (some m)) = true) := by
  refine ⟨fun v => ⟨sanitize_shape v, sanitize_noNul v⟩,
    fun _ => rfl, fun _ => rfl, rfl, rfl, fun m => ?_⟩
  rw [sanitize_metadata_some]
  exact ⟨sanitize_shape_entries m, sanitize_noNul_entries m⟩

/-! ## Claim C9 -/

theorem filter_length_split {α : Type} (p : α → Bool) (l : List α) :
    (l.filter p).length + (l.filter (fun a => !p a)).length = l.length := by
  induction l with
  | nil => rfl
  | cons a l ih =>
    cases hp : p a <;> simp [List.filter_cons, hp, ← ih] <;> omega

theorem filter_neg_eq_self_of_none {α : Type} (p : α → Bool) (l : List α)
    (h : (l.filter p).length = 0) : l.filter (fun a => !p a) = l := by
  have hnil : l.filter p = [] := List.length_eq_zero.mp h
  refine List.filter_eq_self.mpr fun a ha => ?_
  cases hp : p a
  · rfl
  · have : a ∈ l.filter p := List.mem_filter.mpr ⟨ha, hp⟩
    rw [hnil] at this
    simp at this

/-- Claim C9: `remove_orphan_embeddings(dry_run=True)` returns the number
of embedding rows whose `collection_id` matches no collection and leaves
the database unchanged; `remove_orphan_embeddings(dry_run=False)` returns
that same count, after which exactly the non-orphan embedding rows remain
(and the collections are untouched) — the delete uses the same predicate
as the count, so exactly the counted rows are deleted. -/
theorem C9_remove_orphans (db : DBState) :
    (remove_orphan_embeddings db true).1 = _count_orphan_embeddings db ∧
    (remove_orphan_embeddings db true).2 = db ∧
    (remove_orphan_embeddings db false).1 = _count_orphan_embeddings db ∧
    (remove_orphan_embeddings db false).2.embeddings =
      db.embeddings.filter (fun e => !isOrphan db e) ∧
    (remove_orphan_embeddings db false).2.collections = db.collections := by
  refine ⟨rfl, rfl, ?_, ?_, ?_⟩
  · unfold remove_orphan_embeddings deleteOrphansQuery
    by_cases hz : _count_orphan_embeddings db = 0
    · simp [hz]
    · have hzb : (_count_orphan_embeddings db == 0) = false := by simp [hz]
      simp only [hzb, Bool.false_or, Bool.false_eq_true, if_false]
      simp only [_count_orphan_embeddings]
      have := filter_length_split (isOrphan db) db.embeddings
      omega
  · unfold remove_orphan_embeddings deleteOrphansQuery
    by_cases hz : _count_orphan_embeddings db = 0
    · simp only [_count_orphan_embeddings] at hz
      simp [_count_orphan_embeddings, hz,
        filter_neg_eq_self_of_none (isOrphan db) db.embeddings hz]
    · have hzb : (_count_orphan_embeddings db == 0) = false := by simp [hz]
      simp [hzb]
  · unfold remove_orphan_embeddings deleteOrphansQuery
    by_cases hz : _count_orphan_embeddings db = 0
    · simp [hz]
    · have hzb : (_count_orphan_embeddings db == 0) = false := by simp [hz]
      simp [hzb]

/-! ## Lemmas about the PDF fallback escalation -/

theorem pyStrip_nil : pyStrip [] = [] := rfl

theorem metadataTruthy_branch (md : Option Metadata) :
    (if metadataTruthy md then _sanitize_metadata md else []) = _sanitize_metadata md := by
  cases md with
  | none => rfl
  | some m =>
    cases m with
    | nil => rfl
    | cons kv r => rfl

/-- When the chosen fallback text meets the threshold the whole document
list is replaced by one synthetic document. -/
theorem pdfFallback_replace {ε : Type} (e : Bytes → Except ε (List Char))
    (f : Option (Bytes → Except ε (List (List Char)))) (contents : Bytes)
    (md : Option Metadata) (docs : List Doc) (tl : Nat)
    (h : MIN_TEXT_CHARS ≤ (pyStrip (chosenFallbackText e f contents)).length) :
    pdfFallback e f contents md docs tl =
      ([{ page_content :=
            _sanitize_text (some (_normalize_text (some (chosenFallbackText e f contents)))),
          metadata := some (_sanitize_metadata md) }],
       (_sanitize_text (some (_normalize_text (some (chosenFallbackText e f contents))))).length) := by
  have hne : chosenFallbackText e f contents ≠ [] := by
    intro hnil
    rw [hnil, pyStrip_nil] at h
    simp [MIN_TEXT_CHARS] at h
  unfold pdfFallback
  rw [if_pos ⟨hne, h⟩, metadataTruthy_branch]

/-- When the chosen fallback text misses the threshold nothing changes. -/
theorem pdfFallback_keep {ε : Type} (e : Bytes → Except ε (List Char))
    (f : Option (Bytes → Except ε (List (List Char)))) (contents : Bytes)
    (md : Option Metadata) (docs : List Doc) (tl : Nat)
    (h : (pyStrip (chosenFallbackText e f contents)).length < MIN_TEXT_CHARS) :
    pdfFallback e f contents md docs tl = (docs, tl) := by
  unfold pdfFallback
  rw [if_neg]
  exact fun hc => absurd hc.2 (Nat.not_le.mpr h)

/-- The outputs of the attempted fallback strategies in priority order:
pdfminer's `extract_text`, then the `fitz` renderer when it is available
(a raised strategy failure counts as empty output). -/
def strategyOutputs {ε : Type} (e : Bytes → Except ε (List Char))
    (f : Option (Bytes → Except ε (List (List Char)))) (contents : Bytes) :
    List (List Char) :=
  (match e contents with
   | .ok t => t
   | .error _ => []) ::
  (match f with
   | some fitzExtract =>
     [match fitzExtract contents with
      | .ok texts => List.intercalate [NL] texts
      | .error _ => []]
   | none => [])

/-- Some strategy output meets the threshold exactly when the text the
escalation ends up holding does. -/
theorem exists_strategy_iff_chosen {ε : Type} (e : Bytes → Except ε (List Char))
    (f : Option (Bytes → Except ε (List (List Char)))) (contents : Bytes) :
    (∃ t ∈ strategyOutputs e f contents, MIN_TEXT_CHARS ≤ (pyStrip t).length) ↔
      MIN_TEXT_CHARS ≤ (pyStrip (chosenFallbackText e f contents)).length := by
  unfold strategyOutputs chosenFallbackText
  cases he : e contents with
  | error err =>
    cases f with
    | none =>
      simp only []
      constructor
      · rintro ⟨t, ht, hlen⟩
        simp only [List.mem_singleton] at ht
        subst ht
        exact hlen
      · intro h
        exact ⟨[], List.mem_singleton.mpr rfl, h⟩
    | some ff =>
      dsimp only
      have hcond : ([] : List Char) = [] ∨ (pyStrip ([] : List Char)).length < MIN_TEXT_CHARS :=
        Or.inl rfl
      rw [if_pos hcond]
      cases hff : ff contents with
      | ok ts =>
        constructor
        · rintro ⟨t, ht, hlen⟩
          simp only [List.mem_cons, List.mem_singleton, List.not_mem_nil, or_false] at ht
          rcases ht with rfl | rfl
          · rw [pyStrip_nil] at hlen
            simp [MIN_TEXT_CHARS] at hlen
          · exact hlen
        · intro h
          exact ⟨List.intercalate [NL] ts, by simp, h⟩
      | error err2 =>
        constructor
        · rintro ⟨t, ht, hlen⟩
          simp only [List.mem_cons, List.mem_singleton, List.not_mem_nil, or_false] at ht
          rcases ht with rfl | rfl <;>
            (rw [pyStrip_nil] at hlen; simp [MIN_TEXT_CHARS] at hlen)
        · intro h
          rw [pyStrip_nil] at h
          simp [MIN_TEXT_CHARS] at h
  | ok t0 =>
    cases f with
    | none =>
      constructor
      · rintro ⟨t, ht, hlen⟩
        simp only [List.mem_singleton] at ht
        subst ht
        exact hlen
      · intro h
        exact ⟨t0, List.mem_singleton.mpr rfl, h⟩
    | some ff =>
      dsimp only
      by_cases hcond : t0 = [] ∨ (pyStrip t0).length < MIN_TEXT_CHARS
      · rw [if_pos hcond]
        have ht0low : (pyStrip t0).length < MIN_TEXT_CHARS := by
          rcases hcond with rfl | h
          · rw [pyStrip_nil]; simp [MIN_TEXT_CHARS]
          · exact h
        cases hff : ff contents with
        | ok ts =>
          constructor
          · rintro ⟨t, ht, hlen⟩
            simp only [List.mem_cons, List.mem_singleton, List.not_mem_nil, or_false] at ht
            rcases ht with rfl | rfl
            · exact absurd hlen (Nat.not_le.mpr ht0low)
            · exact hlen
          · intro h
            exact ⟨List.intercalate [NL] ts, by simp, h⟩
        | error err2 =>
          constructor
          · rintro ⟨t, ht, hlen⟩
            simp only [List.mem_cons, List.mem_singleton, List.not_mem_nil, or_false] at ht
            rcases ht with rfl | rfl
            · exact absurd hlen (Nat.not_le.mpr ht0low)
            · rw [pyStrip_nil] at hlen
              simp [MIN_TEXT_CHARS] at hlen
          · intro h
            exact absurd h (Nat.not_le.mpr ht0low)
      · rw [if_neg hcond]
        push_neg at hcond
        constructor
        · intro _
          exact hcond.2
        · intro h
          exact ⟨t0, by simp, h⟩

/-! ## Lemmas about `afterFallback` and `process_document` -/

theorem afterFallback_nonpdf {ε : Type} (env : Env ε) (file : UploadFile)
    (md : Option Metadata) (docs0 : List Doc) (h : isPdfMime file.content_type = false) :
    afterFallback env file md docs0 = (prepDocs docs0 md, totalTrimmed (prepDocs docs0 md)) := by
  unfold afterFallback
  rw [if_neg]
  exact fun hc => absurd hc.2 (by simp [h])

theorem afterFallback_highyield {ε : Type} (env : Env ε) (file : UploadFile)
    (md : Option Metadata) (docs0 : List Doc)
    (h : MIN_TEXT_CHARS ≤ totalTrimmed (prepDocs docs0 md)) :
    afterFallback env file md docs0 = (prepDocs docs0 md, totalTrimmed (prepDocs docs0 md)) := by
  unfold afterFallback
  rw [if_neg]
  exact fun hc => absurd hc.1 (Nat.not_lt.mpr h)

theorem afterFallback_escalates {ε : Type} (env : Env ε) (file : UploadFile)
    (md : Option Metadata) (docs0 : List Doc)
    (hlow : totalTrimmed (prepDocs docs0 md) < MIN_TEXT_CHARS)
    (hpdf : isPdfMime file.content_type = true) :
    afterFallback env file md docs0 =
      pdfFallback env.extract_text env.fitz file.contents md (prepDocs docs0 md)
        (totalTrimmed (prepDocs docs0 md)) := by
  unfold afterFallback
  rw [if_pos ⟨hlow, hpdf⟩]

theorem afterFallback_cases {ε : Type} (env : Env ε) (file : UploadFile)
    (md : Option Metadata) (docs0 : List Doc) :
    afterFallback env file md docs0 = (prepDocs docs0 md, totalTrimmed (prepDocs docs0 md)) ∨
      ∃ d, (afterFallback env file md docs0).1 = [d] ∧
        (afterFallback env file md docs0).2 = d.page_content.length ∧
        d.metadata = some (_sanitize_metadata md) := by
  by_cases hpdf : isPdfMime file.content_type = true
  · by_cases hlow : totalTrimmed (prepDocs docs0 md) < MIN_TEXT_CHARS
    · rw [afterFallback_escalates env file md docs0 hlow hpdf]
      by_cases hch : MIN_TEXT_CHARS ≤
          (pyStrip (chosenFallbackText env.extract_text env.fitz file.contents)).length
      · right
        rw [pdfFallback_replace _ _ _ _ _ _ hch]
        exact ⟨_, rfl, rfl, rfl⟩
      · left
        exact pdfFallback_keep _ _ _ _ _ _ (Nat.lt_of_not_le hch)
    · left
      exact afterFallback_highyield env file md docs0 (Nat.le_of_not_lt hlow)
  · left
    exact afterFallback_nonpdf env file md docs0 (by simpa using hpdf)

theorem process_document_error_shape {ε : Type} (env : Env ε) (file_id : List Char)
    (file : UploadFile) (metadata : Option Metadata) (err : IngestError ε)
    (hd : mimeTypeBasedParse env (pyOrStr file.content_type "text/plain") file.contents =
      .error err) :
    process_document env file_id file metadata = .error err := by
  simp only [process_document, hd]

/-! ## Claim C2 -/

/-- Claim C2: for a PDF ingestion whose primary parse fell below the
threshold, if some fallback strategy yields text whose trimmed length
reaches `MIN_TEXT_CHARS`, the escalation replaces the entire primary
document sequence with exactly one synthetic document whose text is the
normalized, sanitized fallback text and whose metadata is the sanitized
caller-supplied metadata only (all primary per-page metadata discarded);
if no strategy meets the threshold, the primary sequence and its total
are returned unchanged. -/
theorem C2_fallback_replaces {ε : Type} (env : Env ε) (file : UploadFile)
    (md : Option Metadata) (docs0 : List Doc)
    (hpdf : isPdfMime file.content_type = true)
    (hlow : totalTrimmed (prepDocs docs0 md) < MIN_TEXT_CHARS) :
    ((∃ t ∈ strategyOutputs env.extract_text env.fitz file.contents,
        MIN_TEXT_CHARS ≤ (pyStrip t).length) →
      afterFallback env file md docs0 =
        ([{ page_content := _sanitize_text (some (_normalize_text (some
              (chosenFallbackText env.extract_text env.fitz file.contents)))),
            metadata := some (_sanitize_metadata md) }],
         (_sanitize_text (some (_normalize_text (some
              (chosenFallbackText env.extract_text env.fitz file.contents))))).length)) ∧
    ((∀ t ∈ strategyOutputs env.extract_text env.fitz file.contents,
        (pyStrip t).length < MIN_TEXT_CHARS) →
      afterFallback env file md docs0 =
        (prepDocs docs0 md, totalTrimmed (prepDocs docs0 md))) := by
  rw [afterFallback_escalates env file md docs0 hlow hpdf]
  constructor
  · intro hex
    exact pdfFallback_replace _ _ _ _ _ _ ((exists_strategy_iff_chosen _ _ _).mp hex)
  · intro hall
    rcases Nat.lt_or_ge
        (pyStrip (chosenFallbackText env.extract_text env.fitz file.contents)).length
        MIN_TEXT_CHARS with hlt | hge
    · exact pdfFallback_keep _ _ _ _ _ _ hlt
    · obtain ⟨t, ht, hlen⟩ := (exists_strategy_iff_chosen _ _ _).mpr hge
      exact absurd hlen (Nat.not_le.mpr (hall t ht))

/-! ## Concrete collaborators used by the witnesses and counterexamples -/

/-- A benign collaborator set: every handler parses to no documents, the
fallback extractors yield nothing, the splitter is the identity. -/
def baseEnv : Env Unit :=
  { pdf_handler := fun _ => .ok []
  , text_handler := fun _ => .ok []
  , html_handler := fun _ => .ok []
  , msword_handler := fun _ => .ok []
  , docx_handler := fun _ => .ok []
  , extract_text := fun _ => .ok []
  , fitz := none
  , split_documents := id }

/-- An upload declared as `application/pdf`. -/
def pdfFile : UploadFile := { content_type := some "application/pdf", contents := [] }

/-- A parsed document with no text (a scanned PDF page, say). -/
def emptyDoc : Doc := { page_content := [], metadata := some [] }

/-- A fallback text of 501 characters whose trimmed length is 501, but
whose length after normalization and sanitization drops to 500 with a
trailing space: 499 `x`s, one space, one NUL. -/
def fbTrick : List Char := List.replicate 499 'x' ++ [' ', NUL]

def envTrick : Env Unit :=
  { baseEnv with pdf_handler := fun _ => .ok [emptyDoc], extract_text := fun _ => .ok fbTrick }

def envPdfEmpty : Env Unit := { baseEnv with pdf_handler := fun _ => .ok [emptyDoc] }

/-! ## Claim C1 -/

set_option maxRecDepth 1000000 in
/-- Claim C1, counterexample: a PDF ingestion where, at the policy check,
the single (synthetic) document's total trimmed text length is 499 —
strictly below `MIN_TEXT_CHARS = 500` — and the declared type is the PDF
type, yet `process_document` raises nothing and returns a chunk: the code
compares the untrimmed length of the synthetic document (500 here)
instead of the trimmed one. -/
theorem C1_counterexample :
    process_document envTrick ['i', 'd'] pdfFile none =
      .ok [{ page_content := List.replicate 499 'x',
             metadata := some [("file_id", Value.str ['i', 'd'])] }] ∧
    isPdfMime pdfFile.content_type = true ∧
    mimeTypeBasedParse envTrick (pyOrStr pdfFile.content_type "text/plain") pdfFile.contents =
      .ok [emptyDoc] ∧
    totalTrimmed (afterFallback envTrick pdfFile none [emptyDoc]).1 = 499 ∧
    499 < MIN_TEXT_CHARS := by
  refine ⟨?_, by decide, rfl, ?_, by decide⟩
  · rfl
  · rfl

/-- Claim C1 (amended): after normalization and sanitization, the
pipeline rejects with the "insufficient extractable text" condition
exactly when the declared MIME type is the PDF type and its tracked text
length is below `MIN_TEXT_CHARS`, and with the "no extractable text"
condition exactly when the MIME type is any other type and that length
is 0; otherwise it returns the chunk list.  The tracked length is the
sum of the trimmed text lengths of the documents — except that after a
successful fallback replacement it is the untrimmed length of the single
synthetic document's sanitized text (the amendment the counterexample
forces). -/
theorem C1_min_content_policy {ε : Type} (env : Env ε) (file_id : List Char)
    (file : UploadFile) (metadata : Option Metadata) (docs0 : List Doc)
    (hd : mimeTypeBasedParse env (pyOrStr file.content_type "text/plain") file.contents =
      .ok docs0) :
    (process_document env file_id file metadata = .error (.http422 insufficientTextDetail) ↔
      isPdfMime file.content_type = true ∧
        (afterFallback env file metadata docs0).2 < MIN_TEXT_CHARS) ∧
    (process_document env file_id file metadata = .error (.http422 noTextDetail) ↔
      isPdfMime file.content_type = false ∧ (afterFallback env file metadata docs0).2 = 0) ∧
    (afterFallback env file metadata docs0 =
        (prepDocs docs0 metadata, totalTrimmed (prepDocs docs0 metadata)) ∨
      ∃ d, (afterFallback env file metadata docs0).1 = [d] ∧
        (afterFallback env file metadata docs0).2 = d.page_content.length ∧
        d.metadata = some (_sanitize_metadata metadata)) ∧
    (process_document env file_id file metadata =
        .ok (finalize env.split_documents file_id (afterFallback env file metadata docs0).1) ∨
      process_document env file_id file metadata = .error (.http422 insufficientTextDetail) ∨
      process_document env file_id file metadata = .error (.http422 noTextDetail)) := by
  have hne : insufficientTextDetail ≠ noTextDetail := by decide
  rw [process_document_shape env file_id file metadata docs0 hd]
  refine ⟨?_, ?_, afterFallback_cases env file metadata docs0, ?_⟩
  · cases hpdf : isPdfMime file.content_type with
    | true =>
      simp only [if_true]
      by_cases hlt : (afterFallback env file metadata docs0).2 < MIN_TEXT_CHARS
      · simp [hlt]
      · simp [hlt]
    | false =>
      simp only [Bool.false_eq_true, if_false]
      by_cases hz : (afterFallback env file metadata docs0).2 = 0
      · simp [hz]
        exact fun he => absurd he.symm hne
      · simp [hz]
  · cases hpdf : isPdfMime file.content_type with
    | true =>
      simp only [if_true]
      by_cases hlt : (afterFallback env file metadata docs0).2 < MIN_TEXT_CHARS
      · simp [hlt]
        exact fun he => absurd he hne
      · simp [hlt]
    | false =>
      simp only [Bool.false_eq_true, if_false]
      by_cases hz : (afterFallback env file metadata docs0).2 = 0
      · simp [hz]
      · simp [hz]
  · cases hpdf : isPdfMime file.content_type with
    | true =>
      simp only [if_true]
      by_cases hlt : (afterFallback env file metadata docs0).2 < MIN_TEXT_CHARS
      · simp [hlt]
      · simp [hlt]
    | false =>
      simp only [Bool.false_eq_true, if_false]
      by_cases hz : (afterFallback env file metadata docs0).2 = 0
      · simp [hz]
      · simp [hz]

/-- Claim C1, witness for the amended policy theorem: a PDF upload whose
parse yields one empty document and whose fallbacks yield nothing is
rejected with the insufficient-extractable-text condition. -/
theorem C1_min_content_policy_witness :
    process_document envPdfEmpty ['i', 'd'] pdfFile none =
      .error (.http422 insufficientTextDetail) :=
  (C1_min_content_policy envPdfEmpty ['i', 'd'] pdfFile none [emptyDoc] rfl).1.mpr
    ⟨by decide, by decide⟩

/-! ## Claim C3 -/

/-- Replace only the fallback collaborators of an environment. -/
def withFallback {ε : Type} (env : Env ε) (e : Bytes → Except ε (List Char))
    (f : Option (Bytes → Except ε (List (List Char)))) : Env ε :=
  { env with extract_text := e, fitz := f }

theorem mimeParse_withFallback {ε : Type} (env : Env ε) (e : Bytes → Except ε (List Char))
    (f : Option (Bytes → Except ε (List (List Char)))) (m : String) (b : Bytes) :
    mimeTypeBasedParse (withFallback env e f) m b = mimeTypeBasedParse env m b := rfl

/-- A non-PDF ingestion is independent of the fallback collaborators. -/
theorem pd_nonpdf_fallback_ind {ε : Type} (env : Env ε)
    (e1 e2 : Bytes → Except ε (List Char))
    (f1 f2 : Option (Bytes → Except ε (List (List Char))))
    (file_id : List Char) (file : UploadFile) (md : Option Metadata)
    (h : isPdfMime file.content_type = false) :
    process_document (withFallback env e1 f1) file_id file md =
      process_document (withFallback env e2 f2) file_id file md := by
  cases hd : mimeTypeBasedParse env (pyOrStr file.content_type "text/plain") file.contents with
  | error err =>
    rw [process_document_error_shape _ file_id file md err
          (by rw [mimeParse_withFallback]; exact hd),
        process_document_error_shape _ file_id file md err
          (by rw [mimeParse_withFallback]; exact hd)]
  | ok docs0 =>
    rw [process_document_shape _ file_id file md docs0
          (by rw [mimeParse_withFallback]; exact hd),
        process_document_shape _ file_id file md docs0
          (by rw [mimeParse_withFallback]; exact hd),
        afterFallback_nonpdf _ file md docs0 h, afterFallback_nonpdf _ file md docs0 h]
    rfl

/-- A PDF ingestion whose prepared documents reach the threshold is
independent of the fallback collaborators. -/
theorem pd_highyield_fallback_ind {ε : Type} (env : Env ε)
    (e1 e2 : Bytes → Except ε (List Char))
    (f1 f2 : Option (Bytes → Except ε (List (List Char))))
    (file_id : List Char) (file : UploadFile) (md : Option Metadata) (docs0 : List Doc)
    (hd : mimeTypeBasedParse env (pyOrStr file.content_type "text/plain") file.contents =
      .ok docs0)
    (hge : MIN_TEXT_CHARS ≤ totalTrimmed (prepDocs docs0 md)) :
    process_document (withFallback env e1 f1) file_id file md =
      process_document (withFallback env e2 f2) file_id file md := by
  rw [process_document_shape _ file_id file md docs0
        (by rw [mimeParse_withFallback]; exact hd),
      process_document_shape _ file_id file md docs0
        (by rw [mimeParse_withFallback]; exact hd),
      afterFallback_highyield _ file md docs0 hge, afterFallback_highyield _ file md docs0 hge]
  rfl

/-- A one-document primary parse of exactly 499 characters. -/
def doc499 : Doc := { page_content := List.replicate 499 'x', metadata := some [] }

/-- A one-document primary parse of exactly 500 characters. -/
def doc500 : Doc := { page_content := List.replicate 500 'x', metadata := some [] }

def envPdf499 : Env Unit := { baseEnv with pdf_handler := fun _ => .ok [doc499] }

def envPdf500 : Env Unit := { baseEnv with pdf_handler := fun _ => .ok [doc500] }

set_option maxRecDepth 1000000 in
/-- Claim C3: fallback escalation runs exactly when the declared type is
PDF and the total trimmed text of the prepared primary documents is
strictly below `MIN_TEXT_CHARS`: (1) for non-PDF types the result never
depends on the fallback collaborators; (2) nor does it for a PDF whose
primary total reaches the threshold — in particular exactly 500 trimmed
characters (the concrete runs on `doc500`) do not trigger escalation;
(3) below the threshold the escalation block runs on the prepared
documents; and concretely at exactly 499 trimmed characters the fallback
extractor is consulted and decides the outcome (the two `doc499` runs). -/
theorem C3_escalation_boundary :
    (∀ (ε : Type) (env : Env ε) e1 e2 f1 f2 file_id (file : UploadFile) md,
      isPdfMime file.content_type = false →
      process_document (withFallback env e1 f1) file_id file md =
        process_document (withFallback env e2 f2) file_id file md) ∧
    (∀ (ε : Type) (env : Env ε) e1 e2 f1 f2 file_id (file : UploadFile) md docs0,
      mimeTypeBasedParse env (pyOrStr file.content_type "text/plain") file.contents =
        .ok docs0 →
      MIN_TEXT_CHARS ≤ totalTrimmed (prepDocs docs0 md) →
      process_document (withFallback env e1 f1) file_id file md =
        process_document (withFallback env e2 f2) file_id file md) ∧
    (∀ (ε : Type) (env : Env ε) (file : UploadFile) md docs0,
      totalTrimmed (prepDocs docs0 md) < MIN_TEXT_CHARS →
      isPdfMime file.content_type = true →
      afterFallback env file md docs0 =
        pdfFallback env.extract_text env.fitz file.contents md (prepDocs docs0 md)
          (totalTrimmed (prepDocs docs0 md))) ∧
    (process_document (withFallback envPdf499 (fun _ => .ok (List.replicate 1000 'y')) none)
        ['i', 'd'] pdfFile none =
      .ok [{ page_content := List.replicate 1000 'y',
             metadata := some [("file_id", Value.str ['i', 'd'])] }]) ∧
    (process_document (withFallback envPdf499 (fun _ => .ok []) none) ['i', 'd'] pdfFile none =
      .error (.http422 insufficientTextDetail)) ∧
    (process_document (withFallback envPdf500 (fun _ => .ok (List.replicate 1000 'y')) none)
        ['i', 'd'] pdfFile none =
      .ok [{ page_content := List.replicate 500 'x',
             metadata := some [("file_id", Value.str ['i', 'd'])] }]) ∧
    (process_document (withFallback envPdf500 (fun _ => .ok []) none) ['i', 'd'] pdfFile none =
      .ok [{ page_content := List.replicate 500 'x',
             metadata := some [("file_id", Value.str ['i', 'd'])] }]) := by
  refine ⟨fun ε env e1 e2 f1 f2 fid file md h =>
            pd_nonpdf_fallback_ind env e1 e2 f1 f2 fid file md h,
          fun ε env e1 e2 f1 f2 fid file md docs0 hd hge =>
            pd_highyield_fallback_ind env e1 e2 f1 f2 fid file md docs0 hd hge,
          fun ε env file md docs0 hlow hpdf =>
            afterFallback_escalates env file md docs0 hlow hpdf,
          ?_, ?_, ?_, ?_⟩ <;> rfl

/-- An upload declared as `text/html`. -/
def htmlFile : UploadFile := { content_type := some "text/html", contents := [] }

/-- Claim C3, witness: discharging the hypotheses of the quantified parts
at concrete inputs — an HTML ingestion is unaffected by swapping the
fallback extractor. -/
theorem C3_escalation_boundary_witness :
    process_document (withFallback baseEnv (fun _ => .ok (List.replicate 1000 'y')) none)
        ['i', 'd'] htmlFile none =
      process_document (withFallback baseEnv (fun _ => .ok []) none) ['i', 'd'] htmlFile none :=
  C3_escalation_boundary.1 Unit baseEnv _ _ _ _ ['i', 'd'] htmlFile none (by decide)

/-! ## Claim C7 -/

/-- A raised `extract_text` is caught and treated as empty output. -/
theorem chosen_extract_error {ε : Type} (e : Bytes → Except ε (List Char))
    (f : Option (Bytes → Except ε (List (List Char)))) (c : Bytes) (err : ε)
    (he : e c = .error err) :
    chosenFallbackText e f c = chosenFallbackText (fun _ => .ok []) f c := by
  unfold chosenFallbackText
  rw [he]

/-- A raised `fitz` extraction is caught, keeping the previous text. -/
theorem chosen_fitz_error {ε : Type} (e : Bytes → Except ε (List Char))
    (ff : Bytes → Except ε (List (List Char))) (c : Bytes) (err : ε)
    (hf : ff c = .error err) :
    chosenFallbackText e (some ff) c = chosenFallbackText e none c := by
  unfold chosenFallbackText
  dsimp only
  rw [hf]
  dsimp only
  simp only [ite_self]

theorem pdfFallback_congr {ε : Type} (e e' : Bytes → Except ε (List Char))
    (f f' : Option (Bytes → Except ε (List (List Char)))) (c : Bytes)
    (md : Option Metadata) (docs : List Doc) (tl : Nat)
    (h : chosenFallbackText e f c = chosenFallbackText e' f' c) :
    pdfFallback e f c md docs tl = pdfFallback e' f' c md docs tl := by
  unfold pdfFallback
  rw [h]

/-- Swapping the fallback collaborators for ones with the same chosen
fallback text cannot change the result of the call. -/
theorem pd_fallback_congr {ε : Type} (env : Env ε) (e' : Bytes → Except ε (List Char))
    (f' : Option (Bytes → Except ε (List (List Char)))) (file_id : List Char)
    (file : UploadFile) (md : Option Metadata)
    (hch : chosenFallbackText env.extract_text env.fitz file.contents =
      chosenFallbackText e' f' file.contents) :
    process_document env file_id file md =
      process_document { env with extract_text := e', fitz := f' } file_id file md := by
  cases hd : mimeTypeBasedParse env (pyOrStr file.content_type "text/plain") file.contents with
  | error err =>
    rw [process_document_error_shape env file_id file md err hd,
        process_document_error_shape { env with extract_text := e', fitz := f' }
          file_id file md err hd]
  | ok docs0 =>
    rw [process_document_shape env file_id file md docs0 hd,
        process_document_shape { env with extract_text := e', fitz := f' }
          file_id file md docs0 hd]
    have haf : afterFallback env file md docs0 =
        afterFallback { env with extract_text := e', fitz := f' } file md docs0 := by
      simp only [afterFallback]
      rw [pdfFallback_congr env.extract_text e' env.fitz f' file.contents md
            (prepDocs docs0 md) (totalTrimmed (prepDocs docs0 md)) hch]
    rw [haf]

def envC7 : Env Unit :=
  { baseEnv with
      pdf_handler := fun _ => .ok [emptyDoc],
      extract_text := fun _ => .error (),
      fitz := some (fun _ => .ok [List.replicate 1000 'z']) }

set_option maxRecDepth 1000000 in
/-- Claim C7: a failure raised by a fallback extraction strategy never
propagates out of the escalation and never aborts the call — a raised
`extract_text` makes the run identical to one whose `extract_text`
returns empty text, a raised `fitz` extraction makes it identical to a
run without `fitz` — and the next strategy is still attempted: in the
concrete run, `extract_text` raises yet `fitz` is consulted and its
1000-character text becomes the result. -/
theorem C7_strategy_failures_recovered :
    (∀ (ε : Type) (env : Env ε) file_id (file : UploadFile) md err,
      env.extract_text file.contents = .error err →
      process_document env file_id file md =
        process_document { env with extract_text := fun _ => .ok [] } file_id file md) ∧
    (∀ (ε : Type) (env : Env ε) file_id (file : UploadFile) md ff err,
      env.fitz = some ff → ff file.contents = .error err →
      process_document env file_id file md =
        process_document { env with fitz := none } file_id file md) ∧
    (process_document envC7 ['i', 'd'] pdfFile none =
      .ok [{ page_content := List.replicate 1000 'z',
             metadata := some [("file_id", Value.str ['i', 'd'])] }]) := by
  refine ⟨?_, ?_, ?_⟩
  · intro ε env file_id file md err he
    exact pd_fallback_congr env (fun _ => .ok []) env.fitz file_id file md
      (chosen_extract_error env.extract_text env.fitz file.contents err he)
  · intro ε env file_id file md ff err hfz hferr
    have hch : chosenFallbackText env.extract_text env.fitz file.contents =
        chosenFallbackText env.extract_text none file.contents := by
      rw [hfz]
      exact chosen_fitz_error env.extract_text ff file.contents err hferr
    exact pd_fallback_congr env env.extract_text none file_id file md hch
  · rfl

def envExtractFails : Env Unit := { baseEnv with extract_text := fun _ => .error () }

/-- Claim C7, witness: a run whose `extract_text` raises equals the run
where it returns empty text. -/
theorem C7_strategy_failures_recovered_witness :
    process_document envExtractFails ['i', 'd'] pdfFile none =
      process_document { envExtractFails with extract_text := fun _ => .ok [] }
        ['i', 'd'] pdfFile none :=
  C7_strategy_failures_recovered.1 Unit envExtractFails ['i', 'd'] pdfFile none () rfl

/-! ## Claim C8 -/

theorem lookup_handlers_none {ε : Type} (env : Env ε) (m : String)
    (hm : m ∉ SUPPORTED_MIMETYPES) : (HANDLERS env).lookup m = none := by
  simp only [SUPPORTED_MIMETYPES, List.mem_cons, List.mem_singleton, not_or] at hm
  obtain ⟨h1, h2, h3, h4, h5, -⟩ := hm
  have b1 : (m == "application/pdf") = false := beq_eq_false_iff_ne.mpr h2
  have b2 : (m == "text/plain") = false := beq_eq_false_iff_ne.mpr h5
  have b3 : (m == "text/html") = false := beq_eq_false_iff_ne.mpr h4
  have b4 : (m == "application/msword") = false := beq_eq_false_iff_ne.mpr h1
  have b5 : (m == "application/vnd.openxmlformats-officedocument.wordprocessingml.document") =
      false := beq_eq_false_iff_ne.mpr h3
  simp [HANDLERS, List.lookup, b1, b2, b3, b4, b5]

/-- Claim C8: a declared MIME type outside the registered handler set is
rejected with the typed unsupported-mimetype condition (the dispatcher's
`ValueError`) and no chunks are produced; when the registered capability
itself raises, the pipeline signals the condition carrying that
capability's error. -/
theorem C8_dispatch_conditions :
    (∀ (ε : Type) (env : Env ε) file_id (file : UploadFile) md,
      pyOrStr file.content_type "text/plain" ∉ SUPPORTED_MIMETYPES →
      process_document env file_id file md =
        .error (.unsupportedMimeType (pyOrStr file.content_type "text/plain"))) ∧
    (∀ (ε : Type) (env : Env ε) file_id (file : UploadFile) md
        (h : Bytes → Except ε (List Doc)) (ex : ε),
      (HANDLERS env).lookup (pyOrStr file.content_type "text/plain") = some h →
      h file.contents = .error ex →
      process_document env file_id file md = .error (.handlerError ex)) := by
  constructor
  · intro ε env file_id file md hm
    refine process_document_error_shape env file_id file md _ ?_
    unfold mimeTypeBasedParse
    rw [lookup_handlers_none env _ hm]
  · intro ε env file_id file md h ex hl hex
    refine process_document_error_shape env file_id file md _ ?_
    unfold mimeTypeBasedParse
    rw [hl]
    dsimp only
    rw [hex]

/-- An upload with the unregistered declared type `application/vnd.ms-excel`. -/
def excelFile : UploadFile := { content_type := some "application/vnd.ms-excel", contents := [] }

/-- Claim C8, witness: the Scenario C upload is rejected as unsupported,
and a text/plain upload whose capability raises surfaces that error. -/
theorem C8_dispatch_conditions_witness :
    process_document baseEnv ['i', 'd'] excelFile none =
      .error (.unsupportedMimeType "application/vnd.ms-excel") ∧
    process_document { baseEnv with text_handler := fun _ => .error () } ['i', 'd']
      { content_type := some "text/plain", contents := [] } none =
      .error (.handlerError ()) :=
  ⟨C8_dispatch_conditions.1 Unit baseEnv ['i', 'd'] excelFile none (by decide),
   C8_dispatch_conditions.2 Unit { baseEnv with text_handler := fun _ => .error () }
     ['i', 'd'] { content_type := some "text/plain", contents := [] } none
     (fun _ => .error ()) () rfl rfl⟩

/-! ## Claim C10 -/

/-- With no declared MIME type the dispatcher resolves to the plain-text
capability. -/
theorem mimeParse_none_text {ε : Type} (env : Env ε) (b : Bytes) :
    mimeTypeBasedParse env (pyOrStr (none : Option String) "text/plain") b =
      (match env.text_handler b with
       | .ok ds => .ok ds
       | .error e => .error (.handlerError e)) := rfl

/-- Claim C10: an ingestion whose declared MIME type is absent (`None` or
the empty string) is treated as `text/plain`: the call behaves exactly
like one declared `text/plain`, it is never rejected as unsupported, the
PDF-only fallback escalation never applies (the fallback collaborators
cannot influence the result), rejection is governed by the non-PDF
"total trimmed length must be > 0" policy, and the PDF minimum-text
rejection can never be produced. -/
theorem C10_absent_mime_text_plain :
    (∀ (ε : Type) (env : Env ε) file_id (b : Bytes) md,
      process_document env file_id { content_type := none, contents := b } md =
        process_document env file_id { content_type := some "text/plain", contents := b } md) ∧
    (∀ (ε : Type) (env : Env ε) file_id (b : Bytes) md,
      process_document env file_id { content_type := some "", contents := b } md =
        process_document env file_id { content_type := some "text/plain", contents := b } md) ∧
    (∀ (ε : Type) (env : Env ε) file_id (b : Bytes) md m',
      process_document env file_id { content_type := none, contents := b } md ≠
        .error (.unsupportedMimeType m')) ∧
    (∀ (ε : Type) (env : Env ε) e1 e2 f1 f2 file_id (b : Bytes) md,
      process_document (withFallback env e1 f1) file_id
          { content_type := none, contents := b } md =
        process_document (withFallback env e2 f2) file_id
          { content_type := none, contents := b } md) ∧
    (∀ (ε : Type) (env : Env ε) file_id (b : Bytes) md ds,
      env.text_handler b = .ok ds →
      (process_document env file_id { content_type := none, contents := b } md =
          .error (.http422 noTextDetail) ↔ totalTrimmed (prepDocs ds md) = 0)) ∧
    (∀ (ε : Type) (env : Env ε) file_id (b : Bytes) md,
      process_document env file_id { content_type := none, contents := b } md ≠
        .error (.http422 insufficientTextDetail)) := by
  have hlk : ∀ (ε : Type) (env : Env ε),
      (HANDLERS env).lookup "text/plain" = some env.text_handler := fun _ _ => rfl
  have hpdfn : isPdfMime (none : Option String) = false := rfl
  refine ⟨fun ε env file_id b md => rfl, fun ε env file_id b md => rfl, ?_, ?_, ?_, ?_⟩
  · intro ε env file_id b md m' hcontra
    cases ht : env.text_handler b with
    | error e =>
      have hd : mimeTypeBasedParse env
          (pyOrStr (none : Option String) "text/plain") b = .error (.handlerError e) := by
        rw [mimeParse_none_text, ht]
      rw [process_document_error_shape env file_id _ md _ hd] at hcontra
      simp at hcontra
    | ok ds =>
      have hd : mimeTypeBasedParse env
          (pyOrStr (none : Option String) "text/plain") b = .ok ds := by
        rw [mimeParse_none_text, ht]
      rw [process_document_shape env file_id _ md ds hd] at hcontra
      rw [show isPdfMime ({ content_type := none, contents := b } : UploadFile).content_type =
        false from rfl] at hcontra
      simp only [Bool.false_eq_true, if_false] at hcontra
      by_cases hz : (afterFallback env { content_type := none, contents := b } md ds).2 = 0
      · rw [if_pos hz] at hcontra
        simp at hcontra
      · rw [if_neg hz] at hcontra
        simp at hcontra
  · intro ε env e1 e2 f1 f2 file_id b md
    exact pd_nonpdf_fallback_ind env e1 e2 f1 f2 file_id _ md rfl
  · intro ε env file_id b md ds hds
    have hd : mimeTypeBasedParse env
        (pyOrStr (none : Option String) "text/plain") b = .ok ds := by
      rw [mimeParse_none_text, hds]
    rw [process_document_shape env file_id _ md ds hd]
    rw [show isPdfMime ({ content_type := none, contents := b } : UploadFile).content_type =
      false from rfl]
    simp only [Bool.false_eq_true, if_false]
    rw [afterFallback_nonpdf env { content_type := none, contents := b } md ds rfl]
    by_cases hz : totalTrimmed (prepDocs ds md) = 0
    · simp [hz]
    · simp [hz]
  · intro ε env file_id b md hcontra
    have hne : noTextDetail ≠ insufficientTextDetail := by decide
    cases ht : env.text_handler b with
    | error e =>
      have hd : mimeTypeBasedParse env
          (pyOrStr (none : Option String) "text/plain") b = .error (.handlerError e) := by
        rw [mimeParse_none_text, ht]
      rw [process_document_error_shape env file_id _ md _ hd] at hcontra
      simp at hcontra
    | ok ds =>
      have hd : mimeTypeBasedParse env
          (pyOrStr (none : Option String) "text/plain") b = .ok ds := by
        rw [mimeParse_none_text, ht]
      rw [process_document_shape env file_id _ md ds hd] at hcontra
      rw [show isPdfMime ({ content_type := none, contents := b } : UploadFile).content_type =
        false from rfl] at hcontra
      simp only [Bool.false_eq_true, if_false] at hcontra
      by_cases hz : (afterFallback env { content_type := none, contents := b } md ds).2 = 0
      · rw [if_pos hz] at hcontra
        simp only [Except.error.injEq, IngestError.http422.injEq] at hcontra
        exact hne hcontra
      · rw [if_neg hz] at hcontra
        simp at hcontra

/-- Claim C10, witness: an upload with no declared MIME type and an empty
plain-text parse is rejected by the non-PDF empty-text policy. -/
theorem C10_absent_mime_text_plain_witness :
    process_document baseEnv ['i', 'd'] { content_type := none, contents := [] } none =
      .error (.http422 noTextDetail) :=
  (C10_absent_mime_text_plain.2.2.2.2.1 Unit baseEnv ['i', 'd'] [] none [] rfl).mpr rfl

/-! ## Claim C4 -/

/-- Claim C4: every chunk of a successful call carries exactly one
`"file_id"` metadata key, holding the string form of the identifier
generated at the start of the call (so all chunks of one call carry the
identical value), and the pipeline-reserved key overwrites any
caller-supplied value on collision.  The side condition states the
Python-dict guarantee that a split document's metadata holds a key at
most once. -/
theorem C4_provenance {ε : Type} (env : Env ε) (file_id : List Char) (file : UploadFile)
    (metadata : Option Metadata) (docs0 : List Doc) (chunks : List Doc)
    (hd : mimeTypeBasedParse env (pyOrStr file.content_type "text/plain") file.contents =
      .ok docs0)
    (hu : ∀ d ∈ env.split_documents (afterFallback env file metadata docs0).1,
      ∀ m, d.metadata = some m → countKey m "file_id" ≤ 1)
    (hok : process_document env file_id file metadata = .ok chunks) :
    ∀ c ∈ chunks, ∃ mc, c.metadata = some mc ∧
      mc.lookup "file_id" = some (.str file_id) ∧ countKey mc "file_id" = 1 := by
  rw [process_document_shape env file_id file metadata docs0 hd] at hok
  have hchunks : chunks =
      finalize env.split_documents file_id (afterFallback env file metadata docs0).1 := by
    by_cases hpdf : isPdfMime file.content_type = true
    · rw [if_pos hpdf] at hok
      by_cases hlt : (afterFallback env file metadata docs0).2 < MIN_TEXT_CHARS
      · rw [if_pos hlt] at hok
        exact absurd hok (by simp)
      · rw [if_neg hlt] at hok
        exact (Except.ok.inj hok).symm
    · rw [if_neg hpdf] at hok
      by_cases hz : (afterFallback env file metadata docs0).2 = 0
      · rw [if_pos hz] at hok
        exact absurd hok (by simp)
      · rw [if_neg hz] at hok
        exact (Except.ok.inj hok).symm
  subst hchunks
  intro c hc
  simp only [finalize, List.mem_map] at hc
  obtain ⟨sd, hsd, hceq⟩ := hc
  subst hceq
  cases hm : sd.metadata with
  | none =>
    refine ⟨dictSet [] "file_id" (.str file_id), ?_, lookup_dictSet _ _ _, ?_⟩
    · dsimp only
    · exact countKey_dictSet _ _ _ (by simp [countKey])
  | some md =>
    refine ⟨dictSet (_sanitize_metadata (some md)) "file_id" (.str file_id), ?_,
      lookup_dictSet _ _ _, ?_⟩
    · dsimp only
    · refine countKey_dictSet _ _ _ ?_
      rw [sanitize_metadata_some, countKey_sanitizeValueEntries]
      exact hu sd hsd md hm

/-- An upload declared as `text/plain`. -/
def textFile : UploadFile := { content_type := some "text/plain", contents := [] }

/-- A parsed plain-text document. -/
def helloDoc : Doc := { page_content := ['h', 'e', 'l', 'l', 'o'], metadata := some [] }

def envText : Env Unit := { baseEnv with text_handler := fun _ => .ok [helloDoc] }

/-- The chunk the `envText` run produces. -/
def helloChunk : Doc :=
  { page_content := ['h', 'e', 'l', 'l', 'o'],
    metadata := some [("file_id", Value.str ['i', 'd'])] }

/-- Claim C4, witness: in a concrete plain-text run the produced chunk
carries exactly one `"file_id"` key with the generated identifier. -/
theorem C4_provenance_witness :
    ∃ mc, helloChunk.metadata = some mc ∧
      mc.lookup "file_id" = some (.str ['i', 'd']) ∧ countKey mc "file_id" = 1 :=
  C4_provenance envText ['i', 'd'] textFile none [helloDoc] [helloChunk] rfl
    (by
      intro d hd m hm
      have hd' : d ∈ [helloDoc] := hd
      rw [List.mem_singleton] at hd'
      subst hd'
      have hm2 : some ([] : Metadata) = some m := hm
      injection hm2 with hm3
      subst hm3
      decide)
    rfl helloChunk (List.mem_singleton.mpr rfl)

set_option maxRecDepth 1000000 in
/-- Claim C2, witness: a PDF whose primary parse yields one empty
document and whose `extract_text` yields 1000 characters ends with the
single synthetic document built from that fallback text. -/
theorem C2_fallback_replaces_witness :
    afterFallback { baseEnv with extract_text := fun _ => .ok (List.replicate 1000 'y') }
        pdfFile none [emptyDoc] =
      ([{ page_content := List.replicate 1000 'y', metadata := some [] }], 1000) := by
  have h := (C2_fallback_replaces
      { baseEnv with extract_text := fun _ => .ok (List.replicate 1000 'y') }
      pdfFile none [emptyDoc] (by decide) (by decide)).1
    ⟨List.replicate 1000 'y', by decide, by decide⟩
  rw [h]
  rfl
